import Mathlib

/-!
# File service (`package main.go`): upload, download, list

A shallow embedding of the gRPC file server of the repository.  The three
handlers `UploadFile`, `DownloadFile` and `ListFiles` are translated as total
functions over an explicit world (the two semaphore channels and the file
system).  Everything the handlers obtain from outside (messages received from
the stream, outcomes of sends, injected I/O faults, the clock) is an explicit
argument.

The Go standard-library calls used by the handlers are modelled for Unix:
`filepath.Clean`, `filepath.Join`, `os.Open`, `(*os.File).Read`, `os.WriteFile`,
`os.ReadDir`, `DirEntry.Info`, `Time.Format(time.RFC3339)` and buffered channels.
File-system paths are resolved without symbolic links.
-/

/-! ## Bytes and time -/

deriving instance DecidableEq for Except

/-- A byte. -/
abbrev Byte := Fin 256

/-- A byte sequence (`[]byte`). -/
abbrev Bytes := List Byte

/-- A wall-clock instant as `time.Time` presents it to `Format`: the civil
date and clock in the time's location, and the zone offset in seconds east of
UTC. -/
structure Time where
  year : Nat
  month : Nat
  day : Nat
  hour : Nat
  minute : Nat
  second : Nat
  offset : Int
  deriving DecidableEq, Repr

namespace Time

/-- Go's `appendInt(b, x, width)` for a non-negative `x`: the decimal digits of
`x`, zero-padded on the left to `width`. -/
def appendInt (x width : Nat) : List Char :=
  let ds := Nat.toDigits 10 x
  List.replicate (width - ds.length) '0' ++ ds

/-- The zone suffix of `time.RFC3339`: `Z` for offset zero, else the sign and
`hh:mm` of the offset truncated to minutes. -/
def formatZone (offset : Int) : List Char :=
  if offset = 0 then ['Z']
  else
    let zone := Int.tdiv offset 60
    let sign := if zone < 0 then '-' else '+'
    let z := zone.natAbs
    sign :: (appendInt (z / 60) 2 ++ ':' :: appendInt (z % 60) 2)

/-- The method `t.Format(time.RFC3339)`, layout `2006-01-02T15:04:05Z07:00`. -/
def FormatRFC3339 (t : Time) : String :=
  ⟨appendInt t.year 4 ++ '-' :: appendInt t.month 2 ++ '-' :: appendInt t.day 2 ++
    'T' :: appendInt t.hour 2 ++ ':' :: appendInt t.minute 2 ++ ':' ::
    appendInt t.second 2 ++ formatZone t.offset⟩

end Time

/-! ## `path/filepath` on Unix -/

namespace filepath

/-- The elements of a path between its separators (`/`); a path of `n`
separators has `n + 1` elements, some possibly empty. -/
def splitSep : List Char → List (List Char)
  | [] => [[]]
  | c :: cs =>
    if c = '/' then [] :: splitSep cs
    else match splitSep cs with
      | [] => [[c]]
      | e :: es => (c :: e) :: es

/-- Path elements written out with a separator between neighbours. -/
def joinSep : List (List Char) → List Char
  | [] => []
  | [e] => e
  | e :: es => e ++ '/' :: joinSep es

/-- The main loop of `filepath.Clean`, element by element.  `out` is the
output buffer as a list of elements and `dotdot` the number of elements of
`out` that a `..` must not remove (the leading `..` prefix). -/
def cleanLoop (rooted : Bool) : List (List Char) → List (List Char) → Nat → List (List Char)
  | [], out, _ => out
  | e :: es, out, dotdot =>
    if e = [] then cleanLoop rooted es out dotdot
    else if e = ['.'] then cleanLoop rooted es out dotdot
    else if e = ['.', '.'] then
      if out.length > dotdot then cleanLoop rooted es out.dropLast dotdot
      else if !rooted then cleanLoop rooted es (out ++ [e]) (out.length + 1)
      else cleanLoop rooted es out dotdot
    else cleanLoop rooted es (out ++ [e]) dotdot

/-- The function `filepath.Clean` on the characters of a path. -/
def cleanChars (path : List Char) : List Char :=
  if path = [] then ['.']
  else
    let rooted := path.head? = some '/'
    let out := cleanLoop rooted (splitSep path) [] 0
    if rooted then '/' :: joinSep out
    else if out = [] then ['.'] else joinSep out

/-- The function `filepath.Clean`: the shortest path name equivalent to `path`
by purely lexical processing. -/
def Clean (path : String) : String := ⟨cleanChars path.data⟩

/-- The function `filepath.Join`: leading empty elements are dropped, the rest
joined with `/` and cleaned; the empty string if all elements are empty. -/
def Join (elem : List String) : String :=
  match elem.dropWhile (fun e => e = "") with
  | [] => ""
  | es => Clean ⟨joinSep (es.map String.data)⟩

/-- The function `filepath.Dir`: the path up to and including its last
separator, cleaned. -/
def Dir (path : String) : String :=
  let es := splitSep path.data
  if es.length ≤ 1 then Clean ""
  else Clean ⟨joinSep es.dropLast ++ ['/']⟩

/-- The function `filepath.Base`: the last element of the path, after removing
trailing separators. -/
def Base (path : String) : String :=
  if path = "" then "."
  else
    match ((splitSep path.data).filter (· ≠ [])).getLast? with
    | none => "/"
    | some e => ⟨e⟩

end filepath

/-! ## The file system -/

/-- The `syscall.Errno` values the model distinguishes. -/
inductive Errno
  | ENOENT | ENOTDIR | EISDIR | EINVAL | ENAMETOOLONG | EACCES | ENOSPC | EROFS | EMFILE
  deriving DecidableEq, Repr

/-- The text of `Errno.Error()`. -/
def Errno.Error : Errno → String
  | .ENOENT => "no such file or directory"
  | .ENOTDIR => "not a directory"
  | .EISDIR => "is a directory"
  | .EINVAL => "invalid argument"
  | .ENAMETOOLONG => "file name too long"
  | .EACCES => "permission denied"
  | .ENOSPC => "no space left on device"
  | .EROFS => "read-only file system"
  | .EMFILE => "too many open files"

/-- The type `*fs.PathError`. -/
structure PathError where
  Op : String
  Path : String
  Err : Errno
  deriving DecidableEq, Repr

/-- The method `(*PathError).Error`. -/
def PathError.Error (e : PathError) : String :=
  e.Op ++ " " ++ e.Path ++ ": " ++ e.Err.Error

/-- The test `errors.Is(err, os.ErrNotExist)` on a path error. -/
def PathError.IsNotExist (e : PathError) : Bool := e.Err = Errno.ENOENT

/-- An absolute location: the names from the root down. -/
abbrev AbsPath := List String

/-- What a node of the file system is. -/
inductive NodeKind
  | file (content : Bytes)
  | dir
  deriving DecidableEq, Repr

/-- A node of the file system with its last-modification time. -/
structure Node where
  kind : NodeKind
  modTime : Time
  deriving DecidableEq, Repr

/-- The file system as the process sees it: its working directory and the
nodes by absolute location. -/
structure FS where
  cwd : AbsPath
  nodes : List (AbsPath × Node)
  deriving DecidableEq, Repr

namespace FS

/-- The entry stored under a key in an association list. -/
def find (p : AbsPath) : List (AbsPath × Node) → Option Node
  | [] => none
  | (q, n) :: rest => if q = p then some n else find p rest

/-- Replace the entry under a key, or append it when the key is new. -/
def put (p : AbsPath) (n : Node) : List (AbsPath × Node) → List (AbsPath × Node)
  | [] => [(p, n)]
  | (q, m) :: rest => if q = p then (p, n) :: rest else (q, m) :: put p n rest

/-- Set the modification time of the node under a key, if there is one. -/
def touch (p : AbsPath) (t : Time) : List (AbsPath × Node) → List (AbsPath × Node)
  | [] => []
  | (q, m) :: rest =>
    if q = p then (q, { m with modTime := t }) :: rest else (q, m) :: touch p t rest

/-- The node at an absolute location. -/
def node (fs : FS) (p : AbsPath) : Option Node := find p fs.nodes

/-- The constant `NAME_MAX`: the most bytes a path element may have. -/
def NAME_MAX : Nat := 255

/-- The constant `PATH_MAX`: the bytes a path name with its terminating NUL
must not exceed. -/
def PATH_MAX : Nat := 4096

/-- The length in bytes of a string in UTF-8, as Go's `len` counts it. -/
def byteLen : List Char → Nat
  | [] => 0
  | c :: cs => c.utf8Size + byteLen cs

/-- One step of path resolution from directory `cur` by the element `c`. -/
def stepElem (cur : AbsPath) (c : String) : AbsPath :=
  if c = ".." then cur.dropLast
  else if c = "." ∨ c = "" then cur
  else cur ++ [c]

/-- Path resolution: walk the elements from `cur`; every location that is
stepped from must be an existing directory, and an element of more than
`NAME_MAX` bytes cannot be looked up in it.  The location reached is returned
whether or not it exists. -/
def walk (fs : FS) : AbsPath → List String → Except Errno AbsPath
  | cur, [] => .ok cur
  | cur, c :: cs =>
    match fs.node cur with
    | none => .error .ENOENT
    | some ⟨.file _, _⟩ => .error .ENOTDIR
    | some ⟨.dir, _⟩ =>
      if NAME_MAX < byteLen c.data then .error .ENAMETOOLONG
      else walk fs (stepElem cur c) cs

/-- Resolve a path name given to a system call: a name with a NUL byte is
invalid, the empty name does not resolve, and a name that does not fit in
`PATH_MAX` bytes with its terminating NUL is too long; relative names start at
the working directory, rooted names at the root. -/
def resolve (fs : FS) (name : String) : Except Errno AbsPath :=
  if Char.ofNat 0 ∈ name.data then .error .EINVAL
  else if name = "" then .error .ENOENT
  else if PATH_MAX ≤ byteLen name.data then .error .ENAMETOOLONG
  else
    let start := if name.data.head? = some '/' then [] else fs.cwd
    walk fs start ((filepath.splitSep name.data).map String.mk)

end FS

/-- An open file description for reading: the unread rest of a regular file, or
a directory. -/
inductive OpenFile
  | regular (rest : Bytes)
  | directory
  deriving DecidableEq, Repr

/-- The outcome of one `file.Read(buffer)`. -/
inductive ReadResult
  | data (chunk : Bytes) (f : OpenFile)
  | eof
  | err (e : PathError)
  deriving DecidableEq, Repr

/-- A fault injected into `os.WriteFile`: at the open (nothing changes) or at
the write, after `written` bytes reached the truncated file. -/
inductive WriteFault
  | atOpen (e : Errno)
  | atWrite (e : Errno) (written : Nat)
  deriving DecidableEq, Repr

namespace os

/-- The function `os.Open(name)`; `fault` is an injected failure of the open. -/
def Open (fs : FS) (name : String) (fault : Option Errno) : Except PathError OpenFile :=
  match fault with
  | some e => .error ⟨"open", name, e⟩
  | none =>
    match fs.resolve name with
    | .error e => .error ⟨"open", name, e⟩
    | .ok p =>
      match fs.node p with
      | none => .error ⟨"open", name, .ENOENT⟩
      | some ⟨.file content, _⟩ => .ok (.regular content)
      | some ⟨.dir, _⟩ => .ok .directory

/-- The method `file.Read(buffer)` with `len(buffer) = bufLen > 0`: a regular
file yields its next `bufLen` bytes (fewer at the end), and `io.EOF` with no
bytes once nothing is left; reading a directory fails. -/
def Read (name : String) (f : OpenFile) (bufLen : Nat) (fault : Option Errno) : ReadResult :=
  match fault with
  | some e => .err ⟨"read", name, e⟩
  | none =>
    match f with
    | .directory => .err ⟨"read", name, .EISDIR⟩
    | .regular rest =>
      if rest = [] then .eof
      else .data (rest.take bufLen) (.regular (rest.drop bufLen))

/-- The function `os.WriteFile(name, data, 0644)` at clock `now`: open with
`O_WRONLY|O_CREATE|O_TRUNC`, write, close.  Creating a new entry also stamps
the parent directory. -/
def WriteFile (fs : FS) (name : String) (data : Bytes) (now : Time)
    (fault : Option WriteFault) : Option PathError × FS :=
  match fault with
  | some (.atOpen e) => (some ⟨"open", name, e⟩, fs)
  | _ =>
    match fs.resolve name with
    | .error e => (some ⟨"open", name, e⟩, fs)
    | .ok p =>
      let werr : Option PathError :=
        match fault with
        | some (.atWrite e _) => some ⟨"write", name, e⟩
        | _ => none
      let stored : Bytes :=
        match fault with
        | some (.atWrite _ written) => data.take written
        | _ => data
      match fs.node p with
      | some ⟨.dir, _⟩ => (some ⟨"open", name, .EISDIR⟩, fs)
      | some ⟨.file _, _⟩ =>
        (werr, ⟨fs.cwd, FS.put p ⟨.file stored, now⟩ fs.nodes⟩)
      | none =>
        (werr, ⟨fs.cwd, FS.put p ⟨.file stored, now⟩ (FS.touch p.dropLast now fs.nodes)⟩)

end os

/-- A directory entry as `os.ReadDir` returns it. -/
structure DirEntry where
  Name : String
  node : Node
  deriving DecidableEq, Repr

/-- The part of `fs.FileInfo` the server reads. -/
structure FileInfo where
  Name : String
  ModTime : Time
  deriving DecidableEq, Repr

namespace os

/-- Insert an entry into a list sorted by file name. -/
def insertByName (d : DirEntry) : List DirEntry → List DirEntry
  | [] => [d]
  | e :: es => if d.Name.data < e.Name.data then d :: e :: es else e :: insertByName d es

/-- Sort directory entries by file name. -/
def sortByName : List DirEntry → List DirEntry
  | [] => []
  | d :: ds => insertByName d (sortByName ds)

/-- The children of the directory at `p`, in storage order. -/
def children (p : AbsPath) : List (AbsPath × Node) → List DirEntry
  | [] => []
  | (q, n) :: rest =>
    match q.getLast? with
    | some name => if q.dropLast = p then ⟨name, n⟩ :: children p rest else children p rest
    | none => children p rest

/-- The function `os.ReadDir(name)`: all entries of the directory, sorted by
file name; `fault` is an injected failure.  The name is opened as a directory,
so a name that is not one fails at the open. -/
def ReadDir (fs : FS) (name : String) (fault : Option Errno) :
    Except PathError (List DirEntry) :=
  match fault with
  | some e => .error ⟨"open", name, e⟩
  | none =>
    match fs.resolve name with
    | .error e => .error ⟨"open", name, e⟩
    | .ok p =>
      match fs.node p with
      | none => .error ⟨"open", name, .ENOENT⟩
      | some ⟨.file _, _⟩ => .error ⟨"open", name, .ENOTDIR⟩
      | some ⟨.dir, _⟩ => .ok (sortByName (children p fs.nodes))

end os

/-- The method `DirEntry.Info()` of an entry of directory `dir`: an `lstat` of
the entry, which `fault` makes fail. -/
def DirEntry.Info (d : DirEntry) (dir : String) (fault : Option Errno) :
    Except PathError FileInfo :=
  match fault with
  | some e => .error ⟨"lstat", dir ++ "/" ++ d.Name, e⟩
  | none => .ok ⟨d.Name, d.node.modTime⟩

/-! ## Buffered channels used as semaphores -/

/-- A buffered channel of `struct{}`: its capacity and the number of elements
queued. -/
structure Chan where
  cap : Nat
  len : Nat
  deriving DecidableEq, Repr

namespace Chan

/-- The expression `make(chan struct{}, cap)`. -/
def make (cap : Nat) : Chan := ⟨cap, 0⟩

/-- The statement `c <- struct{}{}`: enabled when the buffer has room; `none`
means the sender blocks. -/
def send (c : Chan) : Option Chan :=
  if c.len < c.cap then some { c with len := c.len + 1 } else none

/-- The statement `<-c`: enabled when the buffer is non-empty; `none` means the
receiver blocks. -/
def recv (c : Chan) : Option Chan :=
  if 0 < c.len then some { c with len := c.len - 1 } else none

end Chan

/-! ## The server -/

/-- The constant `storageDir`. -/
def storageDir : String := "./storage"

/-- The constant `maxUploadConnections`. -/
def maxUploadConnections : Nat := 10

/-- The constant `maxListConnections`. -/
def maxListConnections : Nat := 100

/-- The struct `server`: its two semaphore channels (the mutex `mu` is never
locked by any handler). -/
structure server where
  uploadSem : Chan
  listSem : Chan
  deriving DecidableEq, Repr

/-- The constructor `NewServer`. -/
def NewServer : server :=
  { uploadSem := Chan.make maxUploadConnections
    listSem := Chan.make maxListConnections }

/-- The two semaphores of a server. -/
inductive Pool
  | uploadSem
  | listSem
  deriving DecidableEq, Repr

namespace server

/-- The channel behind a pool. -/
def chan (s : server) : Pool → Chan
  | .uploadSem => s.uploadSem
  | .listSem => s.listSem

/-- Store a channel back into its field. -/
def setChan (s : server) : Pool → Chan → server
  | .uploadSem, c => { s with uploadSem := c }
  | .listSem, c => { s with listSem := c }

/-- Take a slot: send on the pool's channel. -/
def acquire (s : server) (p : Pool) : Option server :=
  (s.chan p).send.map (s.setChan p)

/-- Give a slot back: receive from the pool's channel. -/
def release (s : server) (p : Pool) : Option server :=
  (s.chan p).recv.map (s.setChan p)

end server

/-- A semaphore operation, for the history kept in the world. -/
inductive SemEvent
  | acquire (p : Pool)
  | release (p : Pool)
  deriving DecidableEq, Repr

/-- The world a handler runs in: the server, the file system, and the history
of semaphore operations performed so far. -/
structure World where
  srv : server
  fs : FS
  semLog : List SemEvent
  deriving DecidableEq, Repr

namespace World

/-- A handler's opening send on a semaphore; `none` when it blocks. -/
def acquire (w : World) (p : Pool) : Option World :=
  (w.srv.acquire p).map fun s => { w with srv := s, semLog := w.semLog ++ [.acquire p] }

/-- A handler's deferred receive from a semaphore; `none` when it blocks. -/
def release (w : World) (p : Pool) : Option World :=
  (w.srv.release p).map fun s => { w with srv := s, semLog := w.semLog ++ [.release p] }

end World

/-! ## Messages and errors of the RPC layer -/

namespace pb

/-- The message `UploadFileRequest`. -/
structure UploadFileRequest where
  Filename : String
  Content : Bytes
  deriving DecidableEq, Repr

/-- The message `UploadFileResponse`. -/
structure UploadFileResponse where
  Message : String
  deriving DecidableEq, Repr

/-- The message `DownloadFileRequest`. -/
structure DownloadFileRequest where
  Filename : String
  deriving DecidableEq, Repr

/-- The message `DownloadFileResponse`. -/
structure DownloadFileResponse where
  Content : Bytes
  deriving DecidableEq, Repr

/-- The message `FileInfo`. -/
structure FileInfo where
  Filename : String
  CreatedAt : String
  UpdatedAt : String
  deriving DecidableEq, Repr

/-- The message `ListFilesResponse`. -/
structure ListFilesResponse where
  Files : List FileInfo
  deriving DecidableEq, Repr

end pb

/-- An error of the stream itself, with its text. -/
structure StreamError where
  msg : String
  deriving DecidableEq, Repr

/-- The error a handler returns: a status built by `status.Error(f)` with its
code and message, or the error of a stream operation passed on unchanged. -/
inductive RpcError
  | status (code : Nat) (msg : String)
  | stream (e : StreamError)
  deriving DecidableEq, Repr

/-- What one `stream.Recv()` of an upload yields before the end of the stream. -/
inductive RecvResult
  | msg (req : pb.UploadFileRequest)
  | err (e : StreamError)
  deriving DecidableEq, Repr

/-- The environment of one `UploadFile` call. -/
structure UploadEnv where
  /-- results of the successive `stream.Recv()` calls; after them `io.EOF` -/
  recvs : List RecvResult
  /-- clock at the write -/
  now : Time
  /-- injected fault of `os.WriteFile` -/
  writeFault : Option WriteFault
  /-- error of `stream.SendAndClose`, if it fails -/
  sendErr : Option StreamError

/-- The environment of one `DownloadFile` call. -/
structure DownloadEnv where
  /-- injected fault of `os.Open` -/
  openFault : Option Errno
  /-- injected fault of the `k`-th `file.Read` -/
  readFault : Nat → Option Errno
  /-- error of the `k`-th `stream.Send`, if it fails -/
  sendErr : Nat → Option StreamError

/-- The environment of one `ListFiles` call. -/
structure ListEnv where
  /-- injected fault of `os.ReadDir` -/
  readDirFault : Option Errno
  /-- injected fault of `Info()` for the entry of a given name -/
  infoFault : String → Option Errno

/-! ## `UploadFile` -/

/-- The receive loop of `UploadFile`: every message overwrites `filename` and
appends its content to `fileBuffer`; the end of the stream leaves the loop and
a receive error returns status 500. -/
def UploadFile.recvLoop :
    List RecvResult → String → Bytes → Except RpcError (String × Bytes)
  | [], filename, fileBuffer => .ok (filename, fileBuffer)
  | .err e :: _, _, _ => .error (.status 500 ("failed to receive file: " ++ e.msg))
  | .msg req :: rest, _, fileBuffer =>
    UploadFile.recvLoop rest req.Filename (fileBuffer ++ req.Content)

/-- The body of `UploadFile` below the semaphore: receive, check the filename,
write the file, send the response. -/
def UploadFile.body (fs : FS) (env : UploadEnv) :
    Except RpcError pb.UploadFileResponse × FS :=
  match UploadFile.recvLoop env.recvs "" [] with
  | .error e => (.error e, fs)
  | .ok (filename, fileBuffer) =>
    if filename = "" then (.error (.status 400 "filename is required"), fs)
    else
      let filePath := filepath.Join [storageDir, filename]
      match os.WriteFile fs filePath fileBuffer env.now env.writeFault with
      | (some err, fs1) => (.error (.status 500 ("failed to save file: " ++ err.Error)), fs1)
      | (none, fs1) =>
        match env.sendErr with
        | some e => (.error (.stream e), fs1)
        | none => (.ok ⟨"File uploaded successfully"⟩, fs1)

/-- The handler `UploadFile`.  `none`: the call blocks on a semaphore and does
not return.  Otherwise the returned error or the response sent, and the world
after the deferred release. -/
def UploadFile (w : World) (env : UploadEnv) :
    Option (Except RpcError pb.UploadFileResponse × World) :=
  match w.acquire .uploadSem with
  | none => none
  | some w1 =>
    let (res, fs1) := UploadFile.body w1.fs env
    match World.release { w1 with fs := fs1 } .uploadSem with
    | none => none
    | some w2 => some (res, w2)

/-! ## `DownloadFile` -/

/-- The result of a download: the error returned (`none` for `nil`) and the
responses sent on the stream, in order. -/
structure DownloadResult where
  err : Option RpcError
  sent : List pb.DownloadFileResponse
  deriving DecidableEq, Repr

/-- The read loop of `DownloadFile` with a buffer of `bufLen` bytes, with `fuel`
bounding the iterations (`none` when it runs out): read into the buffer, stop
at `io.EOF`, return status 500 on a read or send error, else send the bytes
read and continue.  `k` counts the iterations done and `sent` holds the
responses sent. -/
def DownloadFile.readLoop (filePath : String) (env : DownloadEnv) (bufLen : Nat) :
    Nat → OpenFile → Nat → List pb.DownloadFileResponse → Option DownloadResult
  | 0, _, _, _ => none
  | fuel + 1, file, k, sent =>
    match os.Read filePath file bufLen (env.readFault k) with
    | .eof => some ⟨none, sent⟩
    | .err e => some ⟨some (.status 500 ("failed to read file: " ++ e.Error)), sent⟩
    | .data chunk file1 =>
      match env.sendErr k with
      | some e => some ⟨some (.status 500 ("failed to send file chunk: " ++ e.msg)), sent⟩
      | none =>
        DownloadFile.readLoop filePath env bufLen fuel file1 (k + 1) (sent ++ [⟨chunk⟩])

/-- The number of bytes a read cursor still has to deliver. -/
def OpenFile.remaining : OpenFile → Nat
  | .regular rest => rest.length
  | .directory => 0

/-- The body of `DownloadFile` below the semaphore: open the file (404 when it
does not exist, 500 on another error), then run the read loop with a buffer of
1024 bytes.  The loop gets one iteration more than the file has bytes. -/
def DownloadFile.body (fs : FS) (req : pb.DownloadFileRequest) (env : DownloadEnv) :
    Option DownloadResult :=
  let filePath := filepath.Join [storageDir, req.Filename]
  match os.Open fs filePath env.openFault with
  | .error err =>
    if err.IsNotExist then some ⟨some (.status 404 "file not found"), []⟩
    else some ⟨some (.status 500 ("failed to open file: " ++ err.Error)), []⟩
  | .ok file => DownloadFile.readLoop filePath env 1024 (file.remaining + 1) file 0 []

/-- The handler `DownloadFile`.  `none`: the call does not return (it blocks on
a semaphore).  The file system is only read. -/
def DownloadFile (w : World) (req : pb.DownloadFileRequest) (env : DownloadEnv) :
    Option (DownloadResult × World) :=
  match w.acquire .uploadSem with
  | none => none
  | some w1 =>
    match DownloadFile.body w1.fs req env with
    | none => none
    | some res =>
      match w1.release .uploadSem with
      | none => none
      | some w2 => some (res, w2)

/-! ## `ListFiles` -/

/-- The loop of `ListFiles` over the directory entries: a failing `Info()`
returns status 500, else one `FileInfo` is appended per entry. -/
def ListFiles.loop (env : ListEnv) :
    List DirEntry → List pb.FileInfo → Except RpcError (List pb.FileInfo)
  | [], fileInfos => .ok fileInfos
  | file :: rest, fileInfos =>
    match file.Info storageDir (env.infoFault file.Name) with
    | .error err => .error (.status 500 ("failed to get file info: " ++ err.Error))
    | .ok info =>
      ListFiles.loop env rest (fileInfos ++
        [{ Filename := file.Name
           CreatedAt := info.ModTime.FormatRFC3339
           UpdatedAt := info.ModTime.FormatRFC3339 }])

/-- The body of `ListFiles` below the semaphore. -/
def ListFiles.body (fs : FS) (env : ListEnv) : Except RpcError pb.ListFilesResponse :=
  match os.ReadDir fs storageDir env.readDirFault with
  | .error err => .error (.status 500 ("failed to list files: " ++ err.Error))
  | .ok files =>
    match ListFiles.loop env files [] with
    | .error e => .error e
    | .ok fileInfos => .ok ⟨fileInfos⟩

/-- The handler `ListFiles`.  `none`: the call blocks on a semaphore and does
not return. -/
def ListFiles (w : World) (env : ListEnv) :
    Option (Except RpcError pb.ListFilesResponse × World) :=
  match w.acquire .listSem with
  | none => none
  | some w1 =>
    let res := ListFiles.body w1.fs env
    match w1.release .listSem with
    | none => none
    | some w2 => some (res, w2)

/-! ## Concurrent calls -/

/-- The three RPCs. -/
inductive CallKind
  | UploadFile
  | DownloadFile
  | ListFiles
  deriving DecidableEq, Repr

/-- The semaphore a handler sends on in its first statement and receives from
in its deferred function. -/
def CallKind.pool : CallKind → Pool
  | .UploadFile => .uploadSem
  | .DownloadFile => .uploadSem
  | .ListFiles => .listSem

/-- Where a call stands with respect to its semaphore: before the send has
completed, between the send and the deferred receive, or after it. -/
inductive Phase
  | waiting
  | holding
  | returned
  deriving DecidableEq, Repr

/-- A server with the calls started on it so far. -/
structure Sys where
  srv : server
  calls : List (CallKind × Phase)
  deriving DecidableEq, Repr

/-- What can happen next: a new call starts, the semaphore send of call `i`
completes, or call `i` terminates and its deferred receive runs. -/
inductive Event
  | start (k : CallKind)
  | acquire (i : Nat)
  | finish (i : Nat)
  deriving DecidableEq, Repr

namespace Sys

/-- A fresh server with no calls. -/
def init : Sys := ⟨NewServer, []⟩

/-- One step of the system; `none` when the event is not enabled (a send on a
full channel blocks, and only a call in the right phase can move). -/
def step (s : Sys) : Event → Option Sys
  | .start k => some { s with calls := s.calls ++ [(k, .waiting)] }
  | .acquire i =>
    match s.calls[i]? with
    | some (k, .waiting) =>
      (s.srv.acquire k.pool).map fun srv => ⟨srv, s.calls.set i (k, .holding)⟩
    | _ => none
  | .finish i =>
    match s.calls[i]? with
    | some (k, .holding) =>
      (s.srv.release k.pool).map fun srv => ⟨srv, s.calls.set i (k, .returned)⟩
    | _ => none

/-- Run a sequence of events; `none` as soon as one is not enabled. -/
def run (s : Sys) : List Event → Option Sys
  | [] => some s
  | e :: es =>
    match s.step e with
    | none => none
    | some s1 => run s1 es

/-- The number of calls of kind `k` that hold a slot. -/
def holding (s : Sys) (k : CallKind) : Nat :=
  s.calls.countP fun c => c.1 = k ∧ c.2 = Phase.holding

/-- The invariant of the concurrent system: the channels keep the capacities
`NewServer` gave them, never hold more than their capacity, and hold one
element per call between its send and its deferred receive. -/
def Inv (s : Sys) : Prop :=
  s.srv.uploadSem.cap = maxUploadConnections ∧
  s.srv.listSem.cap = maxListConnections ∧
  s.srv.uploadSem.len ≤ s.srv.uploadSem.cap ∧
  s.srv.listSem.len ≤ s.srv.listSem.cap ∧
  s.holding .UploadFile + s.holding .DownloadFile = s.srv.uploadSem.len ∧
  s.holding .ListFiles = s.srv.listSem.len

end Sys

/-! ## The store seen through the file system -/

namespace FS

/-- The location of the storage directory `./storage`. -/
def storagePath (fs : FS) : AbsPath := fs.cwd ++ ["storage"]

/-- Whether the node at a location is a directory. -/
def isDir (fs : FS) (p : AbsPath) : Bool :=
  match fs.node p with
  | some ⟨.dir, _⟩ => true
  | _ => false

/-- The state `main` establishes with `os.MkdirAll(storageDir, 0755)` before
serving: the working directory and the storage directory are directories. -/
def storeReady (fs : FS) : Bool := fs.isDir fs.cwd && fs.isDir fs.storagePath

/-- The entry of the storage directory under a file name. -/
def stored (fs : FS) (name : String) : Option Node := fs.node (fs.storagePath ++ [name])

/-- The content of the stored object of a name: the storage directory has a
regular file under that name. -/
def object (fs : FS) (name : String) : Option Bytes :=
  match fs.stored name with
  | some ⟨.file content, _⟩ => some content
  | _ => none

end FS

/-- A plain file name: a valid single path element, that is, non-empty, without
separator or NUL, and neither `.` nor `..`. -/
def PlainName (f : String) : Prop :=
  f ≠ "" ∧ '/' ∉ f.data ∧ Char.ofNat 0 ∉ f.data ∧ f ≠ "." ∧ f ≠ ".."

instance (f : String) : Decidable (PlainName f) := by
  unfold PlainName; infer_instance

/-! ## Sample data -/

namespace Sample

/-- A clock reading. -/
def t0 : Time := ⟨2024, 1, 2, 3, 4, 5, 0⟩

/-- A later clock reading, in a zone east of UTC. -/
def t1 : Time := ⟨2024, 1, 2, 4, 4, 6, 3600⟩

/-- A file system right after startup: the working directory `/srv` with an
empty storage directory. -/
def fs0 : FS :=
  ⟨["srv"], [([], ⟨.dir, t0⟩), (["srv"], ⟨.dir, t0⟩), (["srv", "storage"], ⟨.dir, t0⟩)]⟩

/-- A file system whose store holds the objects `a.txt` and `b.txt`. -/
def fs1 : FS :=
  ⟨["srv"], [([], ⟨.dir, t0⟩), (["srv"], ⟨.dir, t0⟩), (["srv", "storage"], ⟨.dir, t0⟩),
    (["srv", "storage", "b.txt"], ⟨.file [7, 8], t1⟩),
    (["srv", "storage", "a.txt"], ⟨.file [1, 2, 3], t0⟩)]⟩

/-- A file system whose storage directory holds a directory `d` next to the
object `a.txt`. -/
def fs2 : FS :=
  ⟨["srv"], [([], ⟨.dir, t0⟩), (["srv"], ⟨.dir, t0⟩), (["srv", "storage"], ⟨.dir, t0⟩),
    (["srv", "storage", "d"], ⟨.dir, t0⟩),
    (["srv", "storage", "a.txt"], ⟨.file [1, 2, 3], t0⟩)]⟩

/-- A file system with a file `notes` next to the storage directory. -/
def fs4 : FS :=
  ⟨["srv"], [([], ⟨.dir, t0⟩), (["srv"], ⟨.dir, t0⟩), (["srv", "storage"], ⟨.dir, t0⟩),
    (["srv", "notes"], ⟨.file [5, 6], t0⟩)]⟩

/-- A file system whose storage directory has been removed. -/
def fs3 : FS := ⟨["srv"], [([], ⟨.dir, t0⟩), (["srv"], ⟨.dir, t0⟩)]⟩

/-- A plain file name of 256 bytes. -/
def longName : String := ⟨List.replicate 256 'a'⟩

/-- A fresh server on the empty store. -/
def w0 : World := ⟨NewServer, fs0, []⟩

/-- A fresh server on the store with two objects. -/
def w1 : World := ⟨NewServer, fs1, []⟩

/-- A server whose transfer semaphore is full and whose listing semaphore is
empty, on the store with two objects. -/
def w2 : World := ⟨⟨⟨10, 10⟩, ⟨100, 0⟩⟩, fs1, []⟩

/-- An upload stream that ends normally, with a clock and no fault. -/
def upload (reqs : List pb.UploadFileRequest) : UploadEnv :=
  ⟨reqs.map RecvResult.msg, t1, none, none⟩

/-- A download environment without faults. -/
def download : DownloadEnv := ⟨none, fun _ => none, fun _ => none⟩

/-- A listing environment without faults. -/
def listing : ListEnv := ⟨none, fun _ => none⟩

/-- A burst of eleven transfer calls of which ten get their slot. -/
def burst : List Event :=
  List.replicate 6 (.start .UploadFile) ++ List.replicate 5 (.start .DownloadFile) ++
    (List.range 10).map Event.acquire

/-- The state after the burst: the transfer semaphore is full and the eleventh
call waits. -/
def burstState : Sys :=
  ⟨⟨⟨10, 10⟩, ⟨100, 0⟩⟩,
    List.replicate 6 (.UploadFile, .holding) ++ List.replicate 4 (.DownloadFile, .holding) ++
      [(.DownloadFile, .waiting)]⟩

end Sample

/-! ## Lemmas on paths -/

namespace filepath

theorem splitSep_of_noSep (l : List Char) (h : '/' ∉ l) : splitSep l = [l] := by
  induction l with
  | nil => rfl
  | cons c cs ih =>
    have hc : c ≠ '/' := fun e => h (by simp [e])
    have hcs : '/' ∉ cs := fun e => h (by simp [e])
    simp [splitSep, hc, ih hcs]

theorem Join_storageDir_plain (f : String) (h : PlainName f) :
    Join [storageDir, f] = "storage/" ++ f := by
  obtain ⟨hne, hsep, -, hdot, hdd⟩ := h
  have h1 : f.data ≠ [] := fun e => hne (String.ext e)
  have h2 : f.data ≠ ['.'] := fun e => hdot (String.ext e)
  have h3 : f.data ≠ ['.', '.'] := fun e => hdd (String.ext e)
  have hs : storageDir = ⟨['.', '/', 's', 't', 'o', 'r', 'a', 'g', 'e']⟩ := by decide
  have hd : decide (storageDir = "") = false := by decide
  simp only [Join, List.dropWhile, hd]
  apply String.ext
  simp only [Clean, List.map, joinSep, hs, String.data_append]
  simp [cleanChars, splitSep, splitSep_of_noSep _ hsep, cleanLoop, h1, h2, h3, joinSep]

end filepath

/-! ## Lemmas on the file system -/

namespace FS

theorem find_put_same (p : AbsPath) (n : Node) (l : List (AbsPath × Node)) :
    find p (put p n l) = some n := by
  induction l with
  | nil => simp [put, find]
  | cons a rest ih =>
    obtain ⟨q, m⟩ := a
    by_cases h : q = p
    · simp [put, find, h]
    · simp [put, find, h, ih]

theorem find_put_other (p q : AbsPath) (n : Node) (l : List (AbsPath × Node)) (hq : q ≠ p) :
    find q (put p n l) = find q l := by
  induction l with
  | nil => simp [put, find, Ne.symm hq]
  | cons a rest ih =>
    obtain ⟨r, m⟩ := a
    by_cases h : r = p
    · subst h
      simp [put, find, Ne.symm hq]
    · by_cases h2 : r = q
      · subst h2
        simp [put, find, h]
      · simp [put, find, h, h2, ih]

theorem find_touch_other (p q : AbsPath) (t : Time) (l : List (AbsPath × Node)) (hq : q ≠ p) :
    find q (touch p t l) = find q l := by
  induction l with
  | nil => rfl
  | cons a rest ih =>
    obtain ⟨r, m⟩ := a
    by_cases h : r = p
    · subst h
      simp [touch, find, Ne.symm hq]
    · by_cases h2 : r = q
      · subst h2
        simp [touch, find, h]
      · simp [touch, find, h, h2, ih]

theorem find_touch_kind (p q : AbsPath) (t : Time) (l : List (AbsPath × Node)) :
    (find q (touch p t l)).map Node.kind = (find q l).map Node.kind := by
  induction l with
  | nil => rfl
  | cons a rest ih =>
    obtain ⟨r, m⟩ := a
    by_cases h : r = p
    · subst h
      by_cases h2 : r = q
      · subst h2
        simp [touch, find]
      · simp [touch, find, h2]
    · by_cases h2 : r = q
      · subst h2
        simp [touch, find, h]
      · simp [touch, find, h, h2, ih]

theorem isDir_iff (fs : FS) (p : AbsPath) :
    fs.isDir p = true ↔ (fs.node p).map Node.kind = some NodeKind.dir := by
  unfold isDir
  split
  · next t h => simp [h]
  · next h =>
    cases hn : fs.node p with
    | none => simp
    | some n =>
      obtain ⟨k, t⟩ := n
      cases k with
      | file c => simp
      | dir => exact absurd hn (h t)

theorem byteLen_append (a b : List Char) : byteLen (a ++ b) = byteLen a + byteLen b := by
  induction a with
  | nil => simp [byteLen]
  | cons c cs ih => simp [byteLen, ih, Nat.add_assoc]

theorem walk_storage_of_ready (fs : FS) (f : String) (hf : PlainName f)
    (hlen : byteLen f.data ≤ NAME_MAX) (hr : fs.storeReady = true) :
    fs.walk fs.cwd ["storage", f] = .ok (fs.storagePath ++ [f]) := by
  obtain ⟨hne, -, -, hdot, hdd⟩ := hf
  simp only [storeReady, Bool.and_eq_true, isDir_iff] at hr
  obtain ⟨h1, h2⟩ := hr
  have e1 : stepElem fs.cwd "storage" = fs.storagePath := by
    simp [stepElem, storagePath]
  have e2 : stepElem fs.storagePath f = fs.storagePath ++ [f] := by
    simp [stepElem, hne, hdot, hdd]
  have l1 : ¬ NAME_MAX < byteLen "storage".data := by decide
  have l2 : ¬ NAME_MAX < byteLen f.data := Nat.not_lt.mpr hlen
  cases hn1 : fs.node fs.cwd with
  | none => simp [hn1] at h1
  | some n1 =>
    obtain ⟨k1, t1⟩ := n1
    cases k1 with
    | file c => simp [hn1] at h1
    | dir =>
      cases hn2 : fs.node fs.storagePath with
      | none => simp [hn2] at h2
      | some n2 =>
        obtain ⟨k2, t2⟩ := n2
        cases k2 with
        | file c => simp [hn2] at h2
        | dir => simp only [walk, hn1, hn2, e1, e2, if_neg l1, if_neg l2]

theorem walk_storage_ok (fs : FS) (f : String) (hf : PlainName f) (p : AbsPath)
    (hw : fs.walk fs.cwd ["storage", f] = .ok p) :
    p = fs.storagePath ++ [f] ∧ fs.storeReady = true ∧ byteLen f.data ≤ NAME_MAX := by
  obtain ⟨hne, -, -, hdot, hdd⟩ := hf
  have e1 : stepElem fs.cwd "storage" = fs.storagePath := by
    simp [stepElem, storagePath]
  have e2 : stepElem fs.storagePath f = fs.storagePath ++ [f] := by
    simp [stepElem, hne, hdot, hdd]
  have l1 : ¬ NAME_MAX < byteLen "storage".data := by decide
  cases hn1 : fs.node fs.cwd with
  | none => simp [walk, hn1] at hw
  | some n1 =>
    obtain ⟨k1, t1⟩ := n1
    cases k1 with
    | file c => simp [walk, hn1] at hw
    | dir =>
      cases hn2 : fs.node fs.storagePath with
      | none => simp only [walk, hn1, e1, hn2, if_neg l1] at hw; cases hw
      | some n2 =>
        obtain ⟨k2, t2⟩ := n2
        cases k2 with
        | file c => simp only [walk, hn1, e1, hn2, if_neg l1] at hw; cases hw
        | dir =>
          simp only [walk, hn1, hn2, e1, e2, if_neg l1] at hw
          by_cases hl : NAME_MAX < byteLen f.data
          · rw [if_pos hl] at hw; cases hw
          · rw [if_neg hl] at hw
            refine ⟨?_, ?_, Nat.not_lt.mp hl⟩
            · cases hw; rfl
            · simp [storeReady, isDir, hn1, hn2]

theorem storagePrefix_data (f : String) :
    ("storage/" ++ f).data = ['s', 't', 'o', 'r', 'a', 'g', 'e', '/'] ++ f.data := by
  simp [String.data_append]

theorem resolve_storage_plain (fs : FS) (f : String) (hf : PlainName f) :
    fs.resolve ("storage/" ++ f) =
      if PATH_MAX ≤ 8 + byteLen f.data then .error .ENAMETOOLONG
      else fs.walk fs.cwd ["storage", f] := by
  obtain ⟨hne, hsep, hnul, -, -⟩ := hf
  have hd := storagePrefix_data f
  have h0 : Char.ofNat 0 ∉ ("storage/" ++ f).data := by
    rw [hd]
    simp only [List.mem_append, not_or]
    exact ⟨by decide, hnul⟩
  have h1 : "storage/" ++ f ≠ "" := by
    intro e
    have := congrArg String.data e
    rw [hd] at this
    simp at this
  have hb : byteLen ("storage/" ++ f).data = 8 + byteLen f.data := by
    rw [hd, byteLen_append]
    rfl
  unfold resolve
  rw [if_neg h0, if_neg h1, hb]
  simp only [hd]
  simp [filepath.splitSep, filepath.splitSep_of_noSep _ hsep]

theorem resolve_storage_plain_ok (fs : FS) (f : String) (hf : PlainName f) (p : AbsPath)
    (h : fs.resolve ("storage/" ++ f) = .ok p) :
    p = fs.storagePath ++ [f] ∧ fs.storeReady = true ∧ byteLen f.data ≤ NAME_MAX := by
  rw [resolve_storage_plain fs f hf] at h
  by_cases hl : PATH_MAX ≤ 8 + byteLen f.data
  · rw [if_pos hl] at h; cases h
  · rw [if_neg hl] at h
    exact walk_storage_ok fs f hf p h

theorem resolve_storage_plain_fits (fs : FS) (f : String) (hf : PlainName f)
    (hlen : byteLen f.data ≤ NAME_MAX) :
    fs.resolve ("storage/" ++ f) = fs.walk fs.cwd ["storage", f] := by
  rw [resolve_storage_plain fs f hf, if_neg]
  simp only [PATH_MAX, NAME_MAX] at hlen ⊢
  omega

end FS
/-! ## Lemmas on the read loop -/

theorem DownloadFile.readLoop_regular (filePath : String) (env : DownloadEnv) (n : Nat)
    (hn : 0 < n) :
    ∀ (fuel : Nat) (rest : Bytes) (k : Nat) (sent : List pb.DownloadFileResponse),
      rest.length < fuel →
      ∃ res, DownloadFile.readLoop filePath env n fuel (.regular rest) k sent = some res ∧
        (res.err = none → ∃ out : List Bytes,
          res.sent = sent ++ out.map pb.DownloadFileResponse.mk ∧
          out.flatten = rest ∧
          (∀ i (h : i < out.length), out[i] = (rest.drop (n * i)).take n) ∧
          out.length * n < rest.length + n ∧ rest.length ≤ out.length * n) ∧
        ((∀ j, env.readFault j = none) → (∀ j, env.sendErr j = none) → res.err = none) := by
  intro fuel
  induction fuel with
  | zero => intro rest k sent h; omega
  | succ fuel ih =>
    intro rest k sent hlt
    cases hrf : env.readFault k with
    | some e =>
      refine ⟨_, by simp [DownloadFile.readLoop, os.Read, hrf]; rfl, ?_, ?_⟩
      · intro h; simp at h
      · intro h1 _; simp [h1] at hrf
    | none =>
      by_cases hrest : rest = []
      · subst hrest
        refine ⟨⟨none, sent⟩, by simp [DownloadFile.readLoop, os.Read, hrf], ?_, ?_⟩
        · intro _
          exact ⟨[], by simp, by simp, by simp, by simpa using hn, by simp⟩
        · intro _ _; rfl
      · cases hse : env.sendErr k with
        | some e =>
          refine ⟨_, by simp [DownloadFile.readLoop, os.Read, hrf, hrest, hse]; rfl, ?_, ?_⟩
          · intro h; simp at h
          · intro _ h2; simp [h2] at hse
        | none =>
          have hpos : 0 < rest.length := List.length_pos.mpr hrest
          have hlen : (rest.drop n).length < fuel := by
            rw [List.length_drop]; omega
          obtain ⟨res, hres, hok, hclean⟩ :=
            ih (rest.drop n) (k + 1) (sent ++ [⟨rest.take n⟩]) hlen
          refine ⟨res, by simp [DownloadFile.readLoop, os.Read, hrf, hrest, hse, hres], ?_, hclean⟩
          intro herr
          obtain ⟨out, hsent, hflat, hidx, hlo, hhi⟩ := hok herr
          refine ⟨rest.take n :: out, ?_, ?_, ?_, ?_, ?_⟩
          · simp [hsent]
          · simp [hflat]
          · intro i hi
            cases i with
            | zero => simp
            | succ i =>
              have := hidx i (by simpa using hi)
              simp only [List.getElem_cons_succ, this, List.drop_drop]
              congr 2
              rw [Nat.mul_succ]; omega
          · have hm : out.length * n = 0 ∨ n ≤ out.length * n := by
              cases out.length with
              | zero => left; simp
              | succ j => right; rw [Nat.succ_mul]; omega
            rw [List.length_drop] at hlo
            simp only [List.length_cons, Nat.succ_mul]
            omega
          · rw [List.length_drop] at hhi
            simp only [List.length_cons, Nat.succ_mul]
            omega

/-! ## Lemmas on the semaphores and the handlers -/

theorem World.acquire_of_room (w : World) (p : Pool) (h : (w.srv.chan p).len < (w.srv.chan p).cap) :
    ∃ w1, w.acquire p = some w1 ∧ w1.fs = w.fs ∧
      ∀ fs1, World.release { w1 with fs := fs1 } p =
        some ⟨w.srv, fs1, w.semLog ++ [.acquire p, .release p]⟩ := by
  cases p <;>
    simp [World.acquire, World.release, server.acquire, server.release, server.chan,
      server.setChan, Chan.send, Chan.recv] at h ⊢ <;>
    simp [h]

theorem UploadFile_of_room (w : World) (env : UploadEnv)
    (h : w.srv.uploadSem.len < w.srv.uploadSem.cap) :
    UploadFile w env = some ((UploadFile.body w.fs env).1,
      ⟨w.srv, (UploadFile.body w.fs env).2,
        w.semLog ++ [.acquire .uploadSem, .release .uploadSem]⟩) := by
  obtain ⟨w1, h1, hfs, h2⟩ := World.acquire_of_room w .uploadSem h
  simp [UploadFile, h1, h2, hfs]

theorem DownloadFile_of_room (w : World) (req : pb.DownloadFileRequest) (env : DownloadEnv)
    (h : w.srv.uploadSem.len < w.srv.uploadSem.cap) :
    DownloadFile w req env = (DownloadFile.body w.fs req env).map fun res =>
      (res, ⟨w.srv, w.fs, w.semLog ++ [.acquire .uploadSem, .release .uploadSem]⟩) := by
  obtain ⟨w1, h1, hfs, h2⟩ := World.acquire_of_room w .uploadSem h
  have h3 := h2 w1.fs
  simp only [DownloadFile, h1, hfs]
  cases DownloadFile.body w.fs req env with
  | none => rfl
  | some res =>
    have : ({ w1 with fs := w1.fs } : World) = w1 := rfl
    rw [this] at h3
    simp [h3, hfs]

theorem ListFiles_of_room (w : World) (env : ListEnv)
    (h : w.srv.listSem.len < w.srv.listSem.cap) :
    ListFiles w env = some (ListFiles.body w.fs env,
      ⟨w.srv, w.fs, w.semLog ++ [.acquire .listSem, .release .listSem]⟩) := by
  obtain ⟨w1, h1, hfs, h2⟩ := World.acquire_of_room w .listSem h
  have h3 := h2 w1.fs
  have : ({ w1 with fs := w1.fs } : World) = w1 := rfl
  rw [this] at h3
  simp [ListFiles, h1, h3, hfs]

theorem UploadFile.recvLoop_msgs (reqs : List pb.UploadFileRequest) :
    ∀ (filename : String) (fileBuffer : Bytes),
      UploadFile.recvLoop (reqs.map RecvResult.msg) filename fileBuffer =
        .ok (((reqs.getLast?).map (·.Filename)).getD filename,
          fileBuffer ++ (reqs.map (·.Content)).flatten) := by
  induction reqs with
  | nil => intro filename fileBuffer; simp [UploadFile.recvLoop]
  | cons r rest ih =>
    intro filename fileBuffer
    simp only [List.map_cons, UploadFile.recvLoop, ih]
    cases rest with
    | nil => simp
    | cons r2 rest2 =>
      have hl : (r2 :: rest2).getLast? = some ((r2 :: rest2).getLast (by simp)) :=
        List.getLast?_eq_getLast _ _
      simp [List.getLast?_cons_cons, hl]

theorem DownloadFile.body_isSome (fs : FS) (req : pb.DownloadFileRequest) (env : DownloadEnv) :
    ∃ res, DownloadFile.body fs req env = some res := by
  unfold DownloadFile.body
  simp only
  split
  · split <;> exact ⟨_, rfl⟩
  · next file _ =>
    cases file with
    | regular rest =>
      obtain ⟨res, h, -⟩ := DownloadFile.readLoop_regular
        (filepath.Join [storageDir, req.Filename]) env 1024 (by decide)
        (rest.length + 1) rest 0 [] (Nat.lt_succ_self _)
      exact ⟨res, h⟩
    | directory =>
      cases hrf : env.readFault 0 <;>
        simp [OpenFile.remaining, DownloadFile.readLoop, os.Read, hrf]

/-! ## Lemmas on the concurrent system -/

theorem countP_set_add {α : Type} (p : α → Bool) (l : List α) (i : Nat) (a : α)
    (h : i < l.length) :
    (l.set i a).countP p + (if p l[i] then 1 else 0) =
      l.countP p + (if p a then 1 else 0) := by
  induction l generalizing i with
  | nil => simp at h
  | cons x xs ih =>
    cases i with
    | zero =>
      simp only [List.set_cons_zero, List.countP_cons, List.getElem_cons_zero]
      omega
    | succ j =>
      have hj : j < xs.length := by simpa using h
      have := ih j hj
      simp only [List.set_cons_succ, List.countP_cons, List.getElem_cons_succ]
      omega

namespace Sys

theorem inv_init : Inv init := by
  simp [Inv, init, NewServer, Chan.make, holding]

theorem countP_holding_set (calls : List (CallKind × Phase)) (i : Nat) (k : CallKind)
    (ph ph1 : Phase) (j : CallKind) (h : calls[i]? = some (k, ph)) :
    (calls.set i (k, ph1)).countP (fun c => decide (c.1 = j ∧ c.2 = Phase.holding))
        + (if k = j ∧ ph = Phase.holding then 1 else 0) =
      calls.countP (fun c => decide (c.1 = j ∧ c.2 = Phase.holding))
        + (if k = j ∧ ph1 = Phase.holding then 1 else 0) := by
  obtain ⟨hi, hget⟩ := List.getElem?_eq_some_iff.mp h
  have := countP_set_add (fun c : CallKind × Phase => decide (c.1 = j ∧ c.2 = Phase.holding))
    calls i (k, ph1) hi
  simpa only [hget, decide_eq_true_eq] using this

theorem inv_step (s s1 : Sys) (e : Event) (hinv : Inv s) (hstep : s.step e = some s1) :
    Inv s1 := by
  obtain ⟨hc1, hc2, hl1, hl2, hh1, hh2⟩ := hinv
  simp only [holding] at hh1 hh2
  cases e with
  | start k =>
    simp only [step, Option.some.injEq] at hstep
    subst hstep
    refine ⟨hc1, hc2, hl1, hl2, ?_, ?_⟩
    · simpa [holding, List.countP_append] using hh1
    · simpa [holding, List.countP_append] using hh2
  | acquire i =>
    simp only [step] at hstep
    split at hstep
    · next k hget =>
      have hU := countP_holding_set s.calls i k .waiting .holding .UploadFile hget
      have hD := countP_holding_set s.calls i k .waiting .holding .DownloadFile hget
      have hL := countP_holding_set s.calls i k .waiting .holding .ListFiles hget
      cases k <;>
        simp [server.acquire, server.chan, server.setChan, CallKind.pool, Chan.send] at hstep <;>
        obtain ⟨hroom, rfl⟩ := hstep <;>
        simp only [reduceCtorEq, and_self, and_false, false_and, true_and, and_true,
          if_true, if_false] at hU hD hL <;>
        refine ⟨hc1, hc2, ?_, ?_, ?_, ?_⟩ <;> simp only [holding] <;> omega
    · simp at hstep
  | finish i =>
    simp only [step] at hstep
    split at hstep
    · next k hget =>
      have hU := countP_holding_set s.calls i k .holding .returned .UploadFile hget
      have hD := countP_holding_set s.calls i k .holding .returned .DownloadFile hget
      have hL := countP_holding_set s.calls i k .holding .returned .ListFiles hget
      cases k <;>
        simp [server.release, server.chan, server.setChan, CallKind.pool, Chan.recv] at hstep <;>
        obtain ⟨hroom, rfl⟩ := hstep <;>
        simp only [reduceCtorEq, and_self, and_false, false_and, true_and, and_true,
          if_true, if_false] at hU hD hL <;>
        refine ⟨hc1, hc2, ?_, ?_, ?_, ?_⟩ <;> simp only [holding] <;> omega
    · simp at hstep

theorem inv_run (es : List Event) : ∀ (s s1 : Sys), Inv s → s.run es = some s1 → Inv s1 := by
  induction es with
  | nil =>
    intro s s1 hinv hrun
    simp only [run, Option.some.injEq] at hrun
    exact hrun ▸ hinv
  | cons e es ih =>
    intro s s1 hinv hrun
    simp only [run] at hrun
    cases hstep : s.step e with
    | none => simp [hstep] at hrun
    | some s2 =>
      simp only [hstep] at hrun
      exact ih s2 s1 (inv_step s s2 e hinv hstep) hrun

end Sys

/-! ## Lemmas on `os.WriteFile` and `os.Open` under a plain name -/

theorem os.WriteFile_plain (fs : FS) (f : String) (hf : PlainName f) (data : Bytes)
    (now : Time) (wf : Option WriteFault) :
    (∃ e, os.WriteFile fs (filepath.Join [storageDir, f]) data now wf = (some e, fs)) ∨
    (fs.storeReady = true ∧ ∃ werr stored nodes1,
      os.WriteFile fs (filepath.Join [storageDir, f]) data now wf =
        (werr, ⟨fs.cwd, FS.put (fs.storagePath ++ [f]) ⟨.file stored, now⟩ nodes1⟩) ∧
      (nodes1 = fs.nodes ∨ nodes1 = FS.touch fs.storagePath now fs.nodes) ∧
      (werr = none → stored = data)) := by
  rw [filepath.Join_storageDir_plain f hf]
  unfold os.WriteFile
  cases hw : fs.resolve ("storage/" ++ f) with
  | error e =>
    left
    cases wf with
    | none => exact ⟨_, rfl⟩
    | some x => cases x <;> exact ⟨_, rfl⟩
  | ok p =>
    obtain ⟨rfl, hready, -⟩ := FS.resolve_storage_plain_ok fs f hf p hw
    have hdl : (fs.storagePath ++ [f]).dropLast = fs.storagePath := List.dropLast_concat
    cases wf with
    | none =>
      cases hn : fs.node (fs.storagePath ++ [f]) with
      | none =>
        right
        exact ⟨hready, none, data, _, by simp [hn, hdl], Or.inr rfl, fun _ => rfl⟩
      | some n =>
        obtain ⟨k, t⟩ := n
        cases k with
        | dir => left; exact ⟨⟨"open", "storage/" ++ f, .EISDIR⟩, by simp [hn]⟩
        | file c =>
          right
          exact ⟨hready, none, data, _, by simp [hn], Or.inl rfl, fun _ => rfl⟩
    | some x =>
      cases x with
      | atOpen e => left; exact ⟨_, rfl⟩
      | atWrite e written =>
        cases hn : fs.node (fs.storagePath ++ [f]) with
        | none =>
          right
          exact ⟨hready, some ⟨"write", "storage/" ++ f, e⟩, data.take written, _,
            by simp [hn, hdl], Or.inr rfl, fun h => by simp at h⟩
        | some n =>
          obtain ⟨k, t⟩ := n
          cases k with
          | dir => left; exact ⟨⟨"open", "storage/" ++ f, .EISDIR⟩, by simp [hn]⟩
          | file c =>
            right
            exact ⟨hready, some ⟨"write", "storage/" ++ f, e⟩, data.take written, _,
              by simp [hn], Or.inl rfl, fun h => by simp at h⟩

theorem FS.storagePath_ne_child (fs : FS) (f : String) :
    fs.storagePath ≠ fs.storagePath ++ [f] := by
  intro h
  have := congrArg List.length h
  simp at this

theorem FS.cwd_ne_child (fs : FS) (f : String) : fs.cwd ≠ fs.storagePath ++ [f] := by
  intro h
  have := congrArg List.length h
  simp [FS.storagePath] at this

theorem os.WriteFile_plain_cwd (fs : FS) (f : String) (hf : PlainName f) (data : Bytes)
    (now : Time) (wf : Option WriteFault) :
    (os.WriteFile fs (filepath.Join [storageDir, f]) data now wf).2.cwd = fs.cwd := by
  rcases os.WriteFile_plain fs f hf data now wf with ⟨e, h⟩ | ⟨-, werr, stored, nodes1, h, -, -⟩ <;>
    rw [h]

theorem os.WriteFile_plain_kind (fs : FS) (f : String) (hf : PlainName f) (data : Bytes)
    (now : Time) (wf : Option WriteFault) (q : AbsPath) (hq : q ≠ fs.storagePath ++ [f]) :
    ((os.WriteFile fs (filepath.Join [storageDir, f]) data now wf).2.node q).map Node.kind =
      (fs.node q).map Node.kind := by
  rcases os.WriteFile_plain fs f hf data now wf with ⟨e, h⟩ | ⟨-, werr, stored, nodes1, h, hn, -⟩
  · rw [h]
  · rw [h]
    simp only [FS.node]
    rw [FS.find_put_other _ _ _ _ hq]
    rcases hn with rfl | rfl
    · rfl
    · exact FS.find_touch_kind _ _ _ _

theorem os.WriteFile_plain_other (fs : FS) (f : String) (hf : PlainName f) (data : Bytes)
    (now : Time) (wf : Option WriteFault) (q : AbsPath) (hq : q ≠ fs.storagePath ++ [f])
    (hq2 : q ≠ fs.storagePath) :
    (os.WriteFile fs (filepath.Join [storageDir, f]) data now wf).2.node q = fs.node q := by
  rcases os.WriteFile_plain fs f hf data now wf with ⟨e, h⟩ | ⟨-, werr, stored, nodes1, h, hn, -⟩
  · rw [h]
  · rw [h]
    simp only [FS.node]
    rw [FS.find_put_other _ _ _ _ hq]
    rcases hn with rfl | rfl
    · rfl
    · exact FS.find_touch_other _ _ _ _ hq2

theorem os.WriteFile_plain_ok (fs : FS) (f : String) (hf : PlainName f) (data : Bytes)
    (now : Time) (wf : Option WriteFault)
    (h : (os.WriteFile fs (filepath.Join [storageDir, f]) data now wf).1 = none) :
    (os.WriteFile fs (filepath.Join [storageDir, f]) data now wf).2.node
        (fs.storagePath ++ [f]) = some ⟨.file data, now⟩ ∧
      fs.storeReady = true := by
  rcases os.WriteFile_plain fs f hf data now wf with ⟨e, he⟩ | ⟨hr, werr, stored, nodes1, he, -, hd⟩
  · rw [he] at h; simp at h
  · rw [he] at h ⊢
    have := hd h
    subst this
    exact ⟨FS.find_put_same _ _ _, hr⟩

theorem os.WriteFile_plain_succeeds (fs : FS) (f : String) (hf : PlainName f)
    (hlen : FS.byteLen f.data ≤ FS.NAME_MAX) (data : Bytes)
    (now : Time) (hready : fs.storeReady = true)
    (hnd : fs.isDir (fs.storagePath ++ [f]) = false) :
    (os.WriteFile fs (filepath.Join [storageDir, f]) data now none).1 = none := by
  rw [filepath.Join_storageDir_plain f hf]
  unfold os.WriteFile
  rw [FS.resolve_storage_plain_fits fs f hf hlen, FS.walk_storage_of_ready fs f hf hlen hready]
  cases hn : fs.node (fs.storagePath ++ [f]) with
  | none => simp [hn]
  | some n =>
    obtain ⟨k, t⟩ := n
    cases k with
    | dir => simp [FS.isDir, hn] at hnd
    | file c => simp [hn]

theorem FS.storeReady_of_kind (fs fs1 : FS) (hc : fs1.cwd = fs.cwd)
    (hk1 : (fs1.node fs.cwd).map Node.kind = (fs.node fs.cwd).map Node.kind)
    (hk2 : (fs1.node fs.storagePath).map Node.kind = (fs.node fs.storagePath).map Node.kind)
    (h : fs.storeReady = true) : fs1.storeReady = true := by
  simp only [FS.storeReady, Bool.and_eq_true, FS.isDir_iff] at h ⊢
  have hs : fs1.storagePath = fs.storagePath := by simp [FS.storagePath, hc]
  rw [hs, hc, hk1, hk2]
  exact h

theorem os.Open_plain_file (fs : FS) (f : String) (hf : PlainName f)
    (hlen : FS.byteLen f.data ≤ FS.NAME_MAX) (content : Bytes)
    (t : Time) (hready : fs.storeReady = true)
    (hn : fs.node (fs.storagePath ++ [f]) = some ⟨.file content, t⟩) :
    os.Open fs (filepath.Join [storageDir, f]) none = .ok (.regular content) := by
  rw [filepath.Join_storageDir_plain f hf]
  unfold os.Open
  simp only
  rw [FS.resolve_storage_plain_fits fs f hf hlen, FS.walk_storage_of_ready fs f hf hlen hready]
  simp [hn]

theorem os.Open_plain_absent (fs : FS) (f : String) (hf : PlainName f)
    (hlen : FS.byteLen f.data ≤ FS.NAME_MAX)
    (hready : fs.storeReady = true) (hn : fs.node (fs.storagePath ++ [f]) = none) :
    os.Open fs (filepath.Join [storageDir, f]) none =
      .error ⟨"open", "storage/" ++ f, .ENOENT⟩ := by
  rw [filepath.Join_storageDir_plain f hf]
  unfold os.Open
  simp only
  rw [FS.resolve_storage_plain_fits fs f hf hlen, FS.walk_storage_of_ready fs f hf hlen hready]
  simp [hn]

/-! ## Lemmas on a committed upload -/

theorem UploadFile.body_written (fs : FS) (reqs : List pb.UploadFileRequest)
    (r : pb.UploadFileRequest) (now : Time) (writeFault : Option WriteFault)
    (sendErr : Option StreamError)
    (hlast : reqs.getLast? = some r) (hne : r.Filename ≠ "")
    (hwrite : (os.WriteFile fs (filepath.Join [storageDir, r.Filename])
      (reqs.map (·.Content)).flatten now writeFault).1 = none) :
    UploadFile.body fs ⟨reqs.map RecvResult.msg, now, writeFault, sendErr⟩ =
      (match sendErr with
        | some e => .error (.stream e)
        | none => .ok ⟨"File uploaded successfully"⟩,
       (os.WriteFile fs (filepath.Join [storageDir, r.Filename])
          (reqs.map (·.Content)).flatten now writeFault).2) := by
  simp only [UploadFile.body, UploadFile.recvLoop_msgs, List.nil_append, hlast,
    Option.map_some', Option.getD_some, hne, if_false]
  revert hwrite
  generalize os.WriteFile fs (filepath.Join [storageDir, r.Filename])
    (reqs.map (·.Content)).flatten now writeFault = out
  obtain ⟨e, fs1⟩ := out
  intro hwrite
  simp only at hwrite
  subst hwrite
  cases sendErr <;> rfl

theorem os.WriteFile_plain_storagePath (fs : FS) (f : String) (hf : PlainName f)
    (data : Bytes) (now : Time) (wf : Option WriteFault) :
    (os.WriteFile fs (filepath.Join [storageDir, f]) data now wf).2.storagePath =
      fs.storagePath := by
  simp [FS.storagePath, os.WriteFile_plain_cwd fs f hf data now wf]

theorem os.WriteFile_plain_ready (fs : FS) (f : String) (hf : PlainName f)
    (data : Bytes) (now : Time) (wf : Option WriteFault) (h : fs.storeReady = true) :
    (os.WriteFile fs (filepath.Join [storageDir, f]) data now wf).2.storeReady = true :=
  FS.storeReady_of_kind fs _ (os.WriteFile_plain_cwd fs f hf data now wf)
    (os.WriteFile_plain_kind fs f hf data now wf _ (FS.cwd_ne_child fs f))
    (os.WriteFile_plain_kind fs f hf data now wf _ (FS.storagePath_ne_child fs f)) h

theorem DownloadFile.body_plain_file (fs : FS) (f : String) (hf : PlainName f)
    (hlen : FS.byteLen f.data ≤ FS.NAME_MAX)
    (content : Bytes) (t : Time) (hready : fs.storeReady = true)
    (hn : fs.node (fs.storagePath ++ [f]) = some ⟨.file content, t⟩) :
    ∃ sent, DownloadFile.body fs ⟨f⟩ ⟨none, fun _ => none, fun _ => none⟩ =
        some ⟨none, sent⟩ ∧
      (sent.map (·.Content)).flatten = content := by
  obtain ⟨res, hres, hok, hclean⟩ := DownloadFile.readLoop_regular
    (filepath.Join [storageDir, f]) ⟨none, fun _ => none, fun _ => none⟩ 1024 (by decide)
    (content.length + 1) content 0 [] (Nat.lt_succ_self _)
  have herr : res.err = none := hclean (fun _ => rfl) (fun _ => rfl)
  obtain ⟨out, hsent, hflat, -, -, -⟩ := hok herr
  refine ⟨res.sent, ?_, ?_⟩
  · simp only [DownloadFile.body, os.Open_plain_file fs f hf hlen content t hready hn,
      OpenFile.remaining, hres]
    obtain ⟨e, s⟩ := res
    simp only at herr
    subst herr
    rfl
  · rw [hsent]
    simpa [List.map_map, Function.comp_def] using hflat

/-! ## Lemmas on a download of a regular file -/

theorem DownloadFile.body_regular (fs : FS) (req : pb.DownloadFileRequest) (env : DownloadEnv)
    (p : AbsPath) (content : Bytes) (t : Time)
    (hres : fs.resolve (filepath.Join [storageDir, req.Filename]) = .ok p)
    (hnode : fs.node p = some ⟨.file content, t⟩) :
    ∃ res, DownloadFile.body fs req env = some res ∧
      (res.err = none → ∃ out : List Bytes,
        res.sent = out.map pb.DownloadFileResponse.mk ∧
        out.flatten = content ∧
        (∀ i (h : i < out.length), out[i] = (content.drop (1024 * i)).take 1024) ∧
        out.length * 1024 < content.length + 1024 ∧ content.length ≤ out.length * 1024) ∧
      (env.openFault = none → (∀ j, env.readFault j = none) → (∀ j, env.sendErr j = none) →
        res.err = none) := by
  cases hof : env.openFault with
  | some e =>
    simp only [DownloadFile.body, os.Open, hof]
    split
    · exact ⟨_, rfl, fun h => by simp at h, fun h => by simp at h⟩
    · exact ⟨_, rfl, fun h => by simp at h, fun h => by simp at h⟩
  | none =>
    obtain ⟨res, hloop, hok, hclean⟩ := DownloadFile.readLoop_regular
      (filepath.Join [storageDir, req.Filename]) env 1024 (by decide)
      (content.length + 1) content 0 [] (Nat.lt_succ_self _)
    refine ⟨res, ?_, ?_, fun _ h1 h2 => hclean h1 h2⟩
    · simp only [DownloadFile.body, os.Open, hof, hres, hnode, OpenFile.remaining, hloop]
    · intro herr
      obtain ⟨out, h1, h2, h3, h4, h5⟩ := hok herr
      exact ⟨out, by simpa using h1, h2, h3, h4, h5⟩

/-! ## Lemmas on the listing loop -/

theorem ListFiles.loop_ok (env : ListEnv) :
    ∀ (entries : List DirEntry) (acc : List pb.FileInfo),
      (∀ d ∈ entries, env.infoFault d.Name = none) →
      ListFiles.loop env entries acc = .ok (acc ++ entries.map fun d =>
        ⟨d.Name, d.node.modTime.FormatRFC3339, d.node.modTime.FormatRFC3339⟩) := by
  intro entries
  induction entries with
  | nil => intro acc _; simp [ListFiles.loop]
  | cons d rest ih =>
    intro acc h
    have hd : env.infoFault d.Name = none := h d (List.mem_cons_self _ _)
    have hrest : ∀ x ∈ rest, env.infoFault x.Name = none :=
      fun x hx => h x (List.mem_cons_of_mem _ hx)
    simp [ListFiles.loop, DirEntry.Info, hd, ih _ hrest]

theorem ListFiles.loop_err (env : ListEnv) :
    ∀ (entries : List DirEntry) (acc : List pb.FileInfo),
      (∃ d ∈ entries, env.infoFault d.Name ≠ none) →
      ∃ d ∈ entries, ∃ e, env.infoFault d.Name = some e ∧
        ListFiles.loop env entries acc = .error (.status 500
          ("failed to get file info: " ++
            (PathError.mk "lstat" (storageDir ++ "/" ++ d.Name) e).Error)) := by
  intro entries
  induction entries with
  | nil => intro acc h; simp at h
  | cons d rest ih =>
    intro acc h
    cases hd : env.infoFault d.Name with
    | some e =>
      exact ⟨d, List.mem_cons_self _ _, e, hd, by simp [ListFiles.loop, DirEntry.Info, hd]⟩
    | none =>
      have hrest : ∃ x ∈ rest, env.infoFault x.Name ≠ none := by
        obtain ⟨x, hx, hne⟩ := h
        rcases List.mem_cons.mp hx with rfl | hx
        · exact absurd hd hne
        · exact ⟨x, hx, hne⟩
      obtain ⟨x, hx, e, hxe, hloop⟩ := ih (acc ++
        [⟨d.Name, d.node.modTime.FormatRFC3339, d.node.modTime.FormatRFC3339⟩]) hrest
      exact ⟨x, List.mem_cons_of_mem _ hx, e, hxe,
        by simp [ListFiles.loop, DirEntry.Info, hd, hloop]⟩

/-! ## Lemmas on the joined path of a plain name -/

theorem filepath.Dir_storage_plain (f : String) (hf : PlainName f) :
    filepath.Dir ("storage/" ++ f) = "storage" := by
  obtain ⟨-, hsep, -, -, -⟩ := hf
  have hd : ("storage/" ++ f).data = ['s', 't', 'o', 'r', 'a', 'g', 'e', '/'] ++ f.data := by
    simp [String.data_append]
  unfold filepath.Dir
  simp only [hd]
  simp [filepath.splitSep, filepath.splitSep_of_noSep _ hsep, filepath.joinSep]
  decide

theorem filepath.Base_storage_plain (f : String) (hf : PlainName f) :
    filepath.Base ("storage/" ++ f) = f := by
  obtain ⟨hne, hsep, -, -, -⟩ := hf
  have h1 : f.data ≠ [] := fun e => hne (String.ext e)
  have hd : ("storage/" ++ f).data = ['s', 't', 'o', 'r', 'a', 'g', 'e', '/'] ++ f.data := by
    simp [String.data_append]
  have h0 : "storage/" ++ f ≠ "" := by
    intro e
    have := congrArg String.data e
    rw [hd] at this
    simp at this
  unfold filepath.Base
  rw [if_neg h0]
  simp only [hd]
  simp [filepath.splitSep, filepath.splitSep_of_noSep _ hsep, List.filter, h1]

theorem UploadFile.body_fs (fs : FS) (reqs : List pb.UploadFileRequest)
    (r : pb.UploadFileRequest) (now : Time) (writeFault : Option WriteFault)
    (sendErr : Option StreamError)
    (hlast : reqs.getLast? = some r) (hne : r.Filename ≠ "") :
    (UploadFile.body fs ⟨reqs.map RecvResult.msg, now, writeFault, sendErr⟩).2 =
      (os.WriteFile fs (filepath.Join [storageDir, r.Filename])
        (reqs.map (·.Content)).flatten now writeFault).2 := by
  simp only [UploadFile.body, UploadFile.recvLoop_msgs, List.nil_append, hlast,
    Option.map_some', Option.getD_some, hne, if_false]
  split
  · next h => simp [h]
  · next h =>
    split <;> simp [h]

/-! ## Lemmas on what a download opens and sends -/

theorem DownloadFile.readLoop_sent (filePath : String) (env : DownloadEnv) (n : Nat) :
    ∀ (fuel : Nat) (rest : Bytes) (k : Nat) (sent : List pb.DownloadFileResponse)
      (res : DownloadResult),
      DownloadFile.readLoop filePath env n fuel (.regular rest) k sent = some res →
      ∃ out : List Bytes, res.sent = sent ++ out.map pb.DownloadFileResponse.mk ∧
        out.flatten <+: rest := by
  intro fuel
  induction fuel with
  | zero => intro rest k sent res h; simp [DownloadFile.readLoop] at h
  | succ fuel ih =>
    intro rest k sent res h
    cases hrf : env.readFault k with
    | some e =>
      simp only [DownloadFile.readLoop, os.Read, hrf, Option.some.injEq] at h
      subst h
      exact ⟨[], by simp, by simp⟩
    | none =>
      by_cases hrest : rest = []
      · simp only [DownloadFile.readLoop, os.Read, hrf, hrest, if_true, Option.some.injEq] at h
        subst h
        exact ⟨[], by simp, by simp⟩
      · cases hse : env.sendErr k with
        | some e =>
          simp only [DownloadFile.readLoop, os.Read, hrf, hrest, if_false, hse,
            Option.some.injEq] at h
          subst h
          exact ⟨[], by simp, by simp⟩
        | none =>
          simp only [DownloadFile.readLoop, os.Read, hrf, hrest, if_false, hse] at h
          obtain ⟨out, hsent, hpre⟩ := ih _ _ _ _ h
          refine ⟨rest.take n :: out, by simp [hsent], ?_⟩
          obtain ⟨tl, htl⟩ := hpre
          refine ⟨tl, ?_⟩
          simp only [List.flatten_cons, List.append_assoc, htl, List.take_append_drop]

theorem DownloadFile.readLoop_directory (filePath : String) (env : DownloadEnv) (n : Nat)
    (fuel k : Nat) (sent : List pb.DownloadFileResponse) (res : DownloadResult)
    (h : DownloadFile.readLoop filePath env n fuel .directory k sent = some res) :
    res.sent = sent := by
  cases fuel with
  | zero => simp [DownloadFile.readLoop] at h
  | succ fuel =>
    cases hrf : env.readFault k <;>
      simp only [DownloadFile.readLoop, os.Read, hrf, Option.some.injEq] at h <;>
      subst h <;> rfl

theorem os.Open_plain_ok (fs : FS) (f : String) (hf : PlainName f) (fault : Option Errno)
    (file : OpenFile) (h : os.Open fs (filepath.Join [storageDir, f]) fault = .ok file) :
    ∃ n, fs.node (fs.storagePath ++ [f]) = some n ∧
      file = (match n.kind with
        | .file content => OpenFile.regular content
        | .dir => OpenFile.directory) := by
  rw [filepath.Join_storageDir_plain f hf] at h
  unfold os.Open at h
  cases fault with
  | some e => simp at h
  | none =>
    simp only at h
    cases hr : fs.resolve ("storage/" ++ f) with
    | error e => simp [hr] at h
    | ok p =>
      obtain ⟨rfl, -, -⟩ := FS.resolve_storage_plain_ok fs f hf p hr
      simp only [hr] at h
      cases hn : fs.node (fs.storagePath ++ [f]) with
      | none => simp [hn] at h
      | some n =>
        obtain ⟨kd, t⟩ := n
        cases kd with
        | file c =>
          simp only [hn, Except.ok.injEq] at h
          exact ⟨_, rfl, h.symm⟩
        | dir =>
          simp only [hn, Except.ok.injEq] at h
          exact ⟨_, rfl, h.symm⟩

theorem DownloadFile.body_plain_sent (fs : FS) (f : String) (hf : PlainName f)
    (env : DownloadEnv) (res : DownloadResult)
    (h : DownloadFile.body fs ⟨f⟩ env = some res) (hs : res.sent ≠ []) :
    ∃ c t, fs.node (fs.storagePath ++ [f]) = some ⟨.file c, t⟩ ∧
      (res.sent.map (·.Content)).flatten <+: c := by
  unfold DownloadFile.body at h
  simp only at h
  cases ho : os.Open fs (filepath.Join [storageDir, f]) env.openFault with
  | error e =>
    simp only [ho] at h
    split at h <;> (simp only [Option.some.injEq] at h; subst h; exact absurd rfl hs)
  | ok file =>
    simp only [ho] at h
    obtain ⟨n, hn, hfile⟩ := os.Open_plain_ok fs f hf env.openFault file ho
    obtain ⟨kd, t⟩ := n
    cases kd with
    | dir =>
      simp only at hfile
      subst hfile
      exact absurd (DownloadFile.readLoop_directory _ _ _ _ _ _ _ h) hs
    | file c =>
      simp only at hfile
      subst hfile
      obtain ⟨out, hsent, hpre⟩ := DownloadFile.readLoop_sent _ _ _ _ _ _ _ _ h
      refine ⟨c, t, hn, ?_⟩
      rw [hsent]
      simpa [List.map_map, Function.comp_def] using hpre

theorem DownloadFile_open_error (w : World) (f : String) (env : DownloadEnv) (e : PathError)
    (hroom : w.srv.uploadSem.len < w.srv.uploadSem.cap)
    (h : os.Open w.fs (filepath.Join [storageDir, f]) env.openFault = .error e) :
    DownloadFile w ⟨f⟩ env =
      some (⟨some (if e.Err = Errno.ENOENT then .status 404 "file not found"
          else .status 500 ("failed to open file: " ++ e.Error)), []⟩,
        ⟨w.srv, w.fs, w.semLog ++ [.acquire .uploadSem, .release .uploadSem]⟩) := by
  rw [DownloadFile_of_room w _ env hroom]
  simp only [DownloadFile.body, h, PathError.IsNotExist]
  by_cases he : e.Err = Errno.ENOENT
  · simp [he]
  · simp [he]

/-! ## The exit paths of the handlers on sample data -/

/-- The exit paths of `UploadFile`: success, empty filename, receive error in
mid-stream, failed write, failed send of the response. -/
theorem UploadFile_exit_paths :
    Option.map Prod.fst (UploadFile Sample.w0 (Sample.upload [⟨"a.txt", [1]⟩, ⟨"a.txt", [2]⟩])) =
      some (.ok ⟨"File uploaded successfully"⟩) ∧
    Option.map Prod.fst (UploadFile Sample.w0 (Sample.upload [⟨"", [1]⟩])) =
      some (.error (.status 400 "filename is required")) ∧
    Option.map Prod.fst (UploadFile Sample.w0
        ⟨[.msg ⟨"a.txt", [1]⟩, .err ⟨"connection reset"⟩], Sample.t1, none, none⟩) =
      some (.error (.status 500 "failed to receive file: connection reset")) ∧
    Option.map Prod.fst (UploadFile Sample.w0
        ⟨[.msg ⟨"a.txt", [1]⟩], Sample.t1, some (.atWrite .ENOSPC 0), none⟩) =
      some (.error (.status 500
        "failed to save file: write storage/a.txt: no space left on device")) ∧
    Option.map Prod.fst (UploadFile Sample.w0
        ⟨[.msg ⟨"a.txt", [1]⟩], Sample.t1, none, some ⟨"transport is closing"⟩⟩) =
      some (.error (.stream ⟨"transport is closing"⟩)) := by
  decide

/-- The exit paths of `DownloadFile`: success, file not found, failed open,
read error, send error in mid-stream. -/
theorem DownloadFile_exit_paths :
    Option.map Prod.fst (DownloadFile Sample.w1 ⟨"a.txt"⟩ Sample.download) =
      some ⟨none, [⟨[1, 2, 3]⟩]⟩ ∧
    Option.map Prod.fst (DownloadFile Sample.w1 ⟨"c.txt"⟩ Sample.download) =
      some ⟨some (.status 404 "file not found"), []⟩ ∧
    Option.map Prod.fst
        (DownloadFile Sample.w1 ⟨"a.txt"⟩ ⟨some .EMFILE, fun _ => none, fun _ => none⟩) =
      some ⟨some (.status 500
        "failed to open file: open storage/a.txt: too many open files"), []⟩ ∧
    Option.map Prod.fst
        (DownloadFile Sample.w1 ⟨"a.txt"⟩ ⟨none, fun _ => some .EROFS, fun _ => none⟩) =
      some ⟨some (.status 500
        "failed to read file: read storage/a.txt: read-only file system"), []⟩ ∧
    Option.map Prod.fst
        (DownloadFile Sample.w1 ⟨"a.txt"⟩
          ⟨none, fun _ => none, fun _ => some ⟨"connection reset"⟩⟩) =
      some ⟨some (.status 500 "failed to send file chunk: connection reset"), []⟩ := by
  decide

/-- The exit paths of `ListFiles`: success, failed enumeration, failed `Info()`. -/
theorem ListFiles_exit_paths :
    Option.map Prod.fst (ListFiles Sample.w0 Sample.listing) = some (.ok ⟨[]⟩) ∧
    Option.map Prod.fst (ListFiles Sample.w1 ⟨some .EACCES, fun _ => none⟩) =
      some (.error (.status 500 "failed to list files: open ./storage: permission denied")) ∧
    Option.map Prod.fst (ListFiles Sample.w1
        ⟨none, fun name => if name = "b.txt" then some .ENOENT else none⟩) =
      some (.error (.status 500
        "failed to get file info: lstat ./storage/b.txt: no such file or directory")) := by
  decide

/-! ## The claims -/

set_option maxRecDepth 100000

/-- C1, as the code has it: on a server whose storage directory exists, for
every plain file name `f` of at most 255 bytes under which the storage
directory holds no directory, every byte sequence `b` and every way of cutting
`b` into one or more chunks that all carry `f`, with no fault injected:
`UploadFile` commits, and a following `DownloadFile(f)` on the resulting world
completes normally and sends chunks whose concatenation, in the order sent, is
exactly `b`. -/
theorem C1_upload_download_roundtrip (w : World) (f : String) (b : Bytes)
    (chunks : List Bytes) (now : Time)
    (hroom : w.srv.uploadSem.len < w.srv.uploadSem.cap)
    (hplain : PlainName f) (hlen : FS.byteLen f.data ≤ FS.NAME_MAX)
    (hne : chunks ≠ []) (hsplit : chunks.flatten = b)
    (hready : w.fs.storeReady = true)
    (hnd : w.fs.isDir (w.fs.storagePath ++ [f]) = false) :
    ∃ w1, UploadFile w ⟨chunks.map fun c => .msg ⟨f, c⟩, now, none, none⟩ =
        some (.ok ⟨"File uploaded successfully"⟩, w1) ∧
      ∃ sent w2, DownloadFile w1 ⟨f⟩ ⟨none, fun _ => none, fun _ => none⟩ =
          some (⟨none, sent⟩, w2) ∧
        (sent.map (·.Content)).flatten = b := by
  subst hsplit
  have hreqs : (chunks.map fun c => RecvResult.msg ⟨f, c⟩) =
      (chunks.map fun c => (⟨f, c⟩ : pb.UploadFileRequest)).map RecvResult.msg := by
    simp [List.map_map, Function.comp_def]
  have hlast : (chunks.map fun c => (⟨f, c⟩ : pb.UploadFileRequest)).getLast? =
      some ⟨f, chunks.getLast hne⟩ := by
    rw [List.getLast?_map, List.getLast?_eq_getLast _ hne]
    rfl
  have hcont : ((chunks.map fun c => (⟨f, c⟩ : pb.UploadFileRequest)).map (·.Content)) =
      chunks := by
    simp [List.map_map, Function.comp_def]
  have hwrite := os.WriteFile_plain_succeeds w.fs f hplain hlen chunks.flatten now hready hnd
  have hbody := UploadFile.body_written w.fs
    (chunks.map fun c => (⟨f, c⟩ : pb.UploadFileRequest)) ⟨f, chunks.getLast hne⟩ now none none
    hlast hplain.1 (by rw [hcont]; exact hwrite)
  rw [hcont] at hbody
  obtain ⟨hnode, -⟩ := os.WriteFile_plain_ok w.fs f hplain chunks.flatten now none hwrite
  have hready1 := os.WriteFile_plain_ready w.fs f hplain chunks.flatten now none hready
  have hsp := os.WriteFile_plain_storagePath w.fs f hplain chunks.flatten now none
  rw [← hsp] at hnode
  obtain ⟨sent, hdl, hflat⟩ := DownloadFile.body_plain_file _ f hplain hlen chunks.flatten now
    hready1 hnode
  refine ⟨⟨w.srv, (os.WriteFile w.fs (filepath.Join [storageDir, f]) chunks.flatten now none).2,
    w.semLog ++ [.acquire .uploadSem, .release .uploadSem]⟩, ?_, sent,
    ⟨w.srv, (os.WriteFile w.fs (filepath.Join [storageDir, f]) chunks.flatten now none).2,
      w.semLog ++ [.acquire .uploadSem, .release .uploadSem] ++
        [.acquire .uploadSem, .release .uploadSem]⟩, ?_, hflat⟩
  · rw [hreqs, UploadFile_of_room w _ hroom, hbody]
  · have h2 := DownloadFile_of_room
      ⟨w.srv, (os.WriteFile w.fs (filepath.Join [storageDir, f]) chunks.flatten now none).2,
        w.semLog ++ [.acquire .uploadSem, .release .uploadSem]⟩ ⟨f⟩
      ⟨none, fun _ => none, fun _ => none⟩ hroom
    rw [h2, hdl]
    rfl

/-- C1 on a fresh store: `hello` uploaded as `a.txt` in the chunks `hel`, `lo`. -/
theorem C1_upload_download_roundtrip_witness :
    Sample.w0.srv.uploadSem.len < Sample.w0.srv.uploadSem.cap ∧
    PlainName "a.txt" ∧
    FS.byteLen "a.txt".data ≤ FS.NAME_MAX ∧
    ([[104, 101, 108], [108, 111]] : List Bytes) ≠ [] ∧
    List.flatten ([[104, 101, 108], [108, 111]] : List Bytes) = [104, 101, 108, 108, 111] ∧
    Sample.w0.fs.storeReady = true ∧
    Sample.w0.fs.isDir (Sample.w0.fs.storagePath ++ ["a.txt"]) = false ∧
    ∃ w1, UploadFile Sample.w0
        ⟨[[104, 101, 108], [108, 111]].map fun c => .msg ⟨"a.txt", c⟩, Sample.t1, none, none⟩ =
        some (.ok ⟨"File uploaded successfully"⟩, w1) ∧
      ∃ sent w2, DownloadFile w1 ⟨"a.txt"⟩ ⟨none, fun _ => none, fun _ => none⟩ =
          some (⟨none, sent⟩, w2) ∧
        (sent.map (·.Content)).flatten = [104, 101, 108, 108, 111] :=
  ⟨by decide, by decide, by decide, by decide, by decide, by decide, by decide,
    C1_upload_download_roundtrip Sample.w0 "a.txt" [104, 101, 108, 108, 111]
      [[104, 101, 108], [108, 111]] Sample.t1
      (by decide) (by decide) (by decide) (by decide) (by decide) (by decide) (by decide)⟩

/-- C1 as stated fails: the non-empty plain file name of 256 letters `a` is
longer than a directory entry may be, so a one-chunk upload under it on a fresh
store returns status 500 and the file system stays as it was.  Nor does the
upload commit when the storage directory holds a directory under the name, when
the storage directory is gone, or when the write fails. -/
theorem C1_counterexample :
    PlainName Sample.longName ∧
    Option.map (fun out => (out.1, out.2.fs))
        (UploadFile Sample.w0 (Sample.upload [⟨Sample.longName, [1]⟩])) =
      some (.error (.status 500 ("failed to save file: open storage/" ++ Sample.longName ++
        ": file name too long")), Sample.fs0) ∧
    Option.map (fun out => (out.1, out.2.fs))
        (UploadFile ⟨NewServer, Sample.fs2, []⟩ (Sample.upload [⟨"d", [1]⟩])) =
      some (.error (.status 500 "failed to save file: open storage/d: is a directory"),
        Sample.fs2) ∧
    Option.map (fun out => (out.1, out.2.fs))
        (UploadFile ⟨NewServer, Sample.fs3, []⟩ (Sample.upload [⟨"a.txt", [1]⟩])) =
      some (.error (.status 500
        "failed to save file: open storage/a.txt: no such file or directory"), Sample.fs3) ∧
    Option.map Prod.fst
        (UploadFile Sample.w0 ⟨[.msg ⟨"a.txt", [1]⟩], Sample.t1, some (.atOpen .EACCES), none⟩) =
      some (.error (.status 500
        "failed to save file: open storage/a.txt: permission denied")) := by
  decide

/-- C2: an upload stream that ends normally and whose chunks all carry the empty
filename (also the stream without chunks), whatever the contents, makes
`UploadFile` return status 400 `filename is required`; no response is sent and
the file system after the call is the one before it. -/
theorem C2_empty_filename_rejected (w : World) (contents : List Bytes) (now : Time)
    (writeFault : Option WriteFault) (sendErr : Option StreamError)
    (hroom : w.srv.uploadSem.len < w.srv.uploadSem.cap) :
    ∃ w1, UploadFile w ⟨contents.map fun c => .msg ⟨"", c⟩, now, writeFault, sendErr⟩ =
        some (.error (.status 400 "filename is required"), w1) ∧
      w1.fs = w.fs ∧ w1.srv = w.srv := by
  have hrecv : UploadFile.recvLoop (contents.map fun c => RecvResult.msg ⟨"", c⟩) "" [] =
      .ok ("", contents.flatten) := by
    have := UploadFile.recvLoop_msgs (contents.map fun c => (⟨"", c⟩ : pb.UploadFileRequest)) "" []
    rw [List.map_map] at this
    rw [show (fun c => RecvResult.msg ⟨"", c⟩) = (RecvResult.msg ∘ fun c => ⟨"", c⟩) from rfl,
      this]
    congr 2
    · cases h : (contents.map fun c => (⟨"", c⟩ : pb.UploadFileRequest)).getLast? with
      | none => rfl
      | some r =>
        obtain ⟨c, -, rfl⟩ := List.mem_map.mp (List.mem_of_getLast?_eq_some h)
        rfl
    · simp [List.map_map, Function.comp_def]
  refine ⟨⟨w.srv, w.fs, w.semLog ++ [.acquire .uploadSem, .release .uploadSem]⟩,
    (UploadFile_of_room w _ hroom).trans ?_, rfl, rfl⟩
  simp [UploadFile.body, hrecv]

/-- C2 on the store with two objects: three chunks without filename. -/
theorem C2_empty_filename_rejected_witness :
    Sample.w1.srv.uploadSem.len < Sample.w1.srv.uploadSem.cap ∧
    ∃ w1, UploadFile Sample.w1
        ⟨[[1], [], [2, 3]].map fun c => .msg ⟨"", c⟩, Sample.t1, none, none⟩ =
        some (.error (.status 400 "filename is required"), w1) ∧
      w1.fs = Sample.w1.fs ∧ w1.srv = Sample.w1.srv :=
  ⟨by decide, C2_empty_filename_rejected Sample.w1 [[1], [], [2, 3]] Sample.t1 none none
    (by decide)⟩

/-- C3, as the code has it: `DownloadFile(f)` returns status 404
`file not found` and sends no chunk whenever the open of
`filepath.Join(storageDir, f)` fails with the not-exist error, which without an
injected fault is the case when the path lookup ends at a missing entry or at
a missing directory, in particular for a plain file name of at most 255 bytes
that has no entry in an existing storage directory; an open that fails with
any other error returns status 500 and sends no chunk. -/
theorem C3_absent_is_not_found (w : World) (f : String) (env : DownloadEnv)
    (hroom : w.srv.uploadSem.len < w.srv.uploadSem.cap) :
    (∀ e, os.Open w.fs (filepath.Join [storageDir, f]) env.openFault = .error e →
      e.Err = Errno.ENOENT →
      ∃ w1, DownloadFile w ⟨f⟩ env = some (⟨some (.status 404 "file not found"), []⟩, w1)) ∧
    (∀ e, os.Open w.fs (filepath.Join [storageDir, f]) env.openFault = .error e →
      e.Err ≠ Errno.ENOENT →
      ∃ w1, DownloadFile w ⟨f⟩ env =
        some (⟨some (.status 500 ("failed to open file: " ++ e.Error)), []⟩, w1)) ∧
    (env.openFault = none →
      w.fs.resolve (filepath.Join [storageDir, f]) = .error .ENOENT →
      ∃ w1, DownloadFile w ⟨f⟩ env = some (⟨some (.status 404 "file not found"), []⟩, w1)) ∧
    (env.openFault = none →
      ∀ p, w.fs.resolve (filepath.Join [storageDir, f]) = .ok p → w.fs.node p = none →
      ∃ w1, DownloadFile w ⟨f⟩ env = some (⟨some (.status 404 "file not found"), []⟩, w1)) ∧
    (PlainName f → FS.byteLen f.data ≤ FS.NAME_MAX → w.fs.storeReady = true →
      w.fs.stored f = none → env.openFault = none →
      ∃ w1, DownloadFile w ⟨f⟩ env = some (⟨some (.status 404 "file not found"), []⟩, w1)) := by
  refine ⟨?_, ?_, ?_, ?_, ?_⟩
  · intro e hopen he
    exact ⟨_, (DownloadFile_open_error w f env e hroom hopen).trans (by rw [if_pos he])⟩
  · intro e hopen he
    exact ⟨_, (DownloadFile_open_error w f env e hroom hopen).trans (by rw [if_neg he])⟩
  · intro hfault hres
    have hopen : os.Open w.fs (filepath.Join [storageDir, f]) env.openFault =
        .error ⟨"open", filepath.Join [storageDir, f], .ENOENT⟩ := by
      simp only [os.Open, hfault, hres]
    exact ⟨_, (DownloadFile_open_error w f env _ hroom hopen).trans (by rw [if_pos rfl])⟩
  · intro hfault p hres hnode
    have hopen : os.Open w.fs (filepath.Join [storageDir, f]) env.openFault =
        .error ⟨"open", filepath.Join [storageDir, f], .ENOENT⟩ := by
      simp only [os.Open, hfault, hres, hnode]
    exact ⟨_, (DownloadFile_open_error w f env _ hroom hopen).trans (by rw [if_pos rfl])⟩
  · intro hplain hlen hready habs hfault
    have hopen : os.Open w.fs (filepath.Join [storageDir, f]) env.openFault =
        .error ⟨"open", "storage/" ++ f, .ENOENT⟩ := by
      rw [hfault]
      exact os.Open_plain_absent w.fs f hplain hlen hready habs
    exact ⟨_, (DownloadFile_open_error w f env _ hroom hopen).trans (by rw [if_pos rfl])⟩

/-- C3 on sample stores: the absent plain name `zz`, the absent paths `sub/x`,
`./zz` and `../zz`, and any name when the storage directory is gone, are not
found; a denied open of `a.txt` is an internal error. -/
theorem C3_absent_is_not_found_witness :
    Sample.w1.srv.uploadSem.len < Sample.w1.srv.uploadSem.cap ∧
    (PlainName "zz" ∧ FS.byteLen "zz".data ≤ FS.NAME_MAX ∧ Sample.w1.fs.storeReady = true ∧
      Sample.w1.fs.stored "zz" = none ∧ Sample.download.openFault = none) ∧
    (∃ w1, DownloadFile Sample.w1 ⟨"zz"⟩ Sample.download =
      some (⟨some (.status 404 "file not found"), []⟩, w1)) ∧
    (∃ w1, DownloadFile Sample.w1 ⟨"sub/x"⟩ Sample.download =
      some (⟨some (.status 404 "file not found"), []⟩, w1)) ∧
    (∃ w1, DownloadFile Sample.w1 ⟨"./zz"⟩ Sample.download =
      some (⟨some (.status 404 "file not found"), []⟩, w1)) ∧
    (∃ w1, DownloadFile Sample.w1 ⟨"../zz"⟩ Sample.download =
      some (⟨some (.status 404 "file not found"), []⟩, w1)) ∧
    (∃ w1, DownloadFile ⟨NewServer, Sample.fs3, []⟩ ⟨"a.txt"⟩ Sample.download =
      some (⟨some (.status 404 "file not found"), []⟩, w1)) ∧
    (∃ w1, DownloadFile Sample.w1 ⟨"a.txt"⟩ ⟨some .EACCES, fun _ => none, fun _ => none⟩ =
      some (⟨some (.status 500 "failed to open file: open storage/a.txt: permission denied"),
        []⟩, w1)) :=
  ⟨by decide, by decide,
    (C3_absent_is_not_found Sample.w1 "zz" Sample.download (by decide)).2.2.2.2
      (by decide) (by decide) (by decide) (by decide) (by decide),
    (C3_absent_is_not_found Sample.w1 "sub/x" Sample.download (by decide)).2.2.1
      (by decide) (by decide),
    (C3_absent_is_not_found Sample.w1 "./zz" Sample.download (by decide)).2.2.2.1
      (by decide) ["srv", "storage", "zz"] (by decide) (by decide),
    (C3_absent_is_not_found Sample.w1 "../zz" Sample.download (by decide)).2.2.2.1
      (by decide) ["srv", "zz"] (by decide) (by decide),
    (C3_absent_is_not_found ⟨NewServer, Sample.fs3, []⟩ "a.txt" Sample.download
      (by decide)).1 ⟨"open", "storage/a.txt", .ENOENT⟩ (by decide) (by decide),
    (C3_absent_is_not_found Sample.w1 "a.txt" ⟨some .EACCES, fun _ => none, fun _ => none⟩
      (by decide)).2.1 ⟨"open", "storage/a.txt", .EACCES⟩ (by decide) (by decide)⟩

/-- C3 as stated fails: the empty filename has no object in a fresh store, yet
`DownloadFile` opens the storage directory itself, fails to read it, and
returns status 500 instead of 404.  Likewise the filename `a.txt/x` has no
object in the store holding `a.txt`, and the open fails with not-a-directory,
which is status 500; and the plain name of 256 letters `a` has no object in a
fresh store, and the open fails with name-too-long, which is status 500. -/
theorem C3_counterexample :
    Sample.w0.fs.stored "" = none ∧ Sample.w0.fs.object "" = none ∧
    Option.map Prod.fst (DownloadFile Sample.w0 ⟨""⟩ Sample.download) =
      some ⟨some (.status 500 "failed to read file: read storage: is a directory"), []⟩ ∧
    Sample.w1.fs.stored "a.txt/x" = none ∧ Sample.w1.fs.object "a.txt/x" = none ∧
    Option.map Prod.fst (DownloadFile Sample.w1 ⟨"a.txt/x"⟩ Sample.download) =
      some ⟨some (.status 500
        "failed to open file: open storage/a.txt/x: not a directory"), []⟩ ∧
    PlainName Sample.longName ∧ Sample.w0.fs.stored Sample.longName = none ∧
    Option.map Prod.fst (DownloadFile Sample.w0 ⟨Sample.longName⟩ Sample.download) =
      some ⟨some (.status 500 ("failed to open file: open storage/" ++ Sample.longName ++
        ": file name too long")), []⟩ := by
  decide

/-- C4: in every state reachable from a fresh server (`NewServer`) by starting
calls, completing semaphore sends and terminating calls in any order, the
`UploadFile` and `DownloadFile` calls holding a slot are together at most 10 and
the `ListFiles` calls holding a slot at most 100; the former are exactly the
elements queued in `uploadSem`, the latter exactly those in `listSem`. -/
theorem C4_admission_bound (es : List Event) (s : Sys)
    (h : Sys.run Sys.init es = some s) :
    s.holding .UploadFile + s.holding .DownloadFile ≤ 10 ∧
    s.holding .ListFiles ≤ 100 ∧
    s.holding .UploadFile + s.holding .DownloadFile = s.srv.uploadSem.len ∧
    s.holding .ListFiles = s.srv.listSem.len := by
  obtain ⟨hc1, hc2, hl1, hl2, hh1, hh2⟩ := Sys.inv_run es Sys.init s Sys.inv_init h
  simp only [maxUploadConnections, maxListConnections] at hc1 hc2
  refine ⟨?_, ?_, hh1, hh2⟩ <;> omega

/-- C4 at a burst of eleven transfer calls: ten hold a slot, the eleventh waits. -/
theorem C4_admission_bound_witness :
    Sys.run Sys.init Sample.burst = some Sample.burstState ∧
    (Sample.burstState.holding .UploadFile + Sample.burstState.holding .DownloadFile ≤ 10 ∧
      Sample.burstState.holding .ListFiles ≤ 100 ∧
      Sample.burstState.holding .UploadFile + Sample.burstState.holding .DownloadFile =
        Sample.burstState.srv.uploadSem.len ∧
      Sample.burstState.holding .ListFiles = Sample.burstState.srv.listSem.len) :=
  ⟨by decide, C4_admission_bound Sample.burst Sample.burstState (by decide)⟩

/-- C6, as the code has it: an upload stream that ends normally is rejected with
status 400 `filename is required` if and only if it has no chunk or its last
chunk carries the empty filename; when the last chunk carries a non-empty
filename the call proceeds to `os.WriteFile` on the path joined from it, with
all contents received. -/
theorem C6_rejected_iff_last_filename_empty (w : World) (reqs : List pb.UploadFileRequest)
    (now : Time) (writeFault : Option WriteFault) (sendErr : Option StreamError)
    (hroom : w.srv.uploadSem.len < w.srv.uploadSem.cap) :
    ∃ res w1, UploadFile w ⟨reqs.map RecvResult.msg, now, writeFault, sendErr⟩ = some (res, w1) ∧
      (res = .error (.status 400 "filename is required") ↔
        (reqs = [] ∨ ∃ r, reqs.getLast? = some r ∧ r.Filename = "")) ∧
      (∀ r, reqs.getLast? = some r → r.Filename ≠ "" →
        w1.fs = (os.WriteFile w.fs (filepath.Join [storageDir, r.Filename])
          (reqs.map (·.Content)).flatten now writeFault).2) := by
  refine ⟨_, _, UploadFile_of_room w _ hroom, ?_, ?_⟩
  · simp only [UploadFile.body, UploadFile.recvLoop_msgs, List.nil_append]
    cases hl : reqs.getLast? with
    | none =>
      have : reqs = [] := List.getLast?_eq_none_iff.mp hl
      simp [this]
    | some r =>
      have hne : reqs ≠ [] := by
        intro h; simp [h] at hl
      by_cases hf : r.Filename = ""
      · simp [hf]
      · simp only [Option.map_some', Option.getD_some, hf, if_false, hne, false_or,
          Option.some.injEq, exists_eq_left']
        constructor
        · intro h
          split at h
          · simp at h
          · split at h <;> simp at h
        · intro h; exact h.elim
  · intro r hl hf
    simp only [UploadFile.body, UploadFile.recvLoop_msgs, List.nil_append, hl,
      Option.map_some', Option.getD_some, hf, if_false]
    split
    · next h => simp [h]
    · next h =>
      split <;> simp [h]

/-- C6 on the store with two objects: one stream is rejected, one is written. -/
theorem C6_rejected_iff_last_filename_empty_witness :
    Sample.w1.srv.uploadSem.len < Sample.w1.srv.uploadSem.cap ∧
    ∃ res w1, UploadFile Sample.w1
        ⟨[⟨"c.txt", [5]⟩, ⟨"d.txt", [6]⟩].map RecvResult.msg, Sample.t1, none, none⟩ =
        some (res, w1) ∧
      (res = .error (.status 400 "filename is required") ↔
        (([⟨"c.txt", [5]⟩, ⟨"d.txt", [6]⟩] : List pb.UploadFileRequest) = [] ∨
          ∃ r, ([⟨"c.txt", [5]⟩, ⟨"d.txt", [6]⟩] : List pb.UploadFileRequest).getLast? = some r ∧
            r.Filename = "")) ∧
      (∀ r, ([⟨"c.txt", [5]⟩, ⟨"d.txt", [6]⟩] : List pb.UploadFileRequest).getLast? = some r →
        r.Filename ≠ "" →
        w1.fs = (os.WriteFile Sample.w1.fs (filepath.Join [storageDir, r.Filename])
          (([⟨"c.txt", [5]⟩, ⟨"d.txt", [6]⟩] : List pb.UploadFileRequest).map
            (·.Content)).flatten Sample.t1 none).2) :=
  ⟨by decide, C6_rejected_iff_last_filename_empty Sample.w1 [⟨"c.txt", [5]⟩, ⟨"d.txt", [6]⟩]
    Sample.t1 none none (by decide)⟩

/-- C6 as stated fails: a stream whose first chunk carries `a.txt` and whose
last chunk carries the empty filename is rejected, although a chunk carried a
non-empty filename. -/
theorem C6_counterexample :
    Option.map Prod.fst
        (UploadFile Sample.w0 (Sample.upload [⟨"a.txt", [1]⟩, ⟨"", [2]⟩])) =
      some (.error (.status 400 "filename is required")) ∧
    List.any ([⟨"a.txt", [1]⟩, ⟨"", [2]⟩] : List pb.UploadFileRequest)
      (fun r => r.Filename ≠ "") = true := by
  decide

/-- C7, as the code has it: for an upload stream of one or more chunks that ends
normally and whose last chunk carries a plain file name `f` (one path element),
if the write succeeds then the storage directory afterwards holds under `f` a
regular file whose content is the concatenation, in arrival order, of the
contents of all chunks of the stream, whatever filename they carried; the entry
under every other name is unchanged, so no object is created under a filename
carried only by earlier chunks; and if `SendAndClose` succeeds the response
message is `File uploaded successfully`. -/
theorem C7_last_filename_wins (w : World) (reqs : List pb.UploadFileRequest)
    (r : pb.UploadFileRequest) (now : Time) (writeFault : Option WriteFault)
    (sendErr : Option StreamError)
    (hroom : w.srv.uploadSem.len < w.srv.uploadSem.cap)
    (hlast : reqs.getLast? = some r) (hplain : PlainName r.Filename)
    (hwrite : (os.WriteFile w.fs (filepath.Join [storageDir, r.Filename])
      (reqs.map (·.Content)).flatten now writeFault).1 = none) :
    ∃ res w1, UploadFile w ⟨reqs.map RecvResult.msg, now, writeFault, sendErr⟩ = some (res, w1) ∧
      w1.fs.object r.Filename = some (reqs.map (·.Content)).flatten ∧
      (∀ g, g ≠ r.Filename → w1.fs.stored g = w.fs.stored g) ∧
      (sendErr = none → res = .ok ⟨"File uploaded successfully"⟩) ∧
      (∀ e, sendErr = some e → res = .error (.stream e)) := by
  have hbody := UploadFile.body_written w.fs reqs r now writeFault sendErr hlast hplain.1 hwrite
  obtain ⟨hnode, -⟩ := os.WriteFile_plain_ok w.fs r.Filename hplain _ now writeFault hwrite
  have hsp := os.WriteFile_plain_storagePath w.fs r.Filename hplain
    (reqs.map (·.Content)).flatten now writeFault
  refine ⟨_, _, UploadFile_of_room w _ hroom, ?_, ?_, ?_, ?_⟩
  · simp only [hbody, FS.object, FS.stored, hsp, hnode]
  · intro g hg
    simp only [hbody, FS.stored, hsp]
    apply os.WriteFile_plain_other w.fs r.Filename hplain
    · intro h
      exact hg (by simpa using h)
    · intro h
      have := congrArg List.length h
      simp at this
  · intro h; subst h; rw [hbody]
  · intro e h; subst h; rw [hbody]

/-- C7 on the store with two objects: three chunks under three filenames, the
last one `a.txt`. -/
theorem C7_last_filename_wins_witness :
    Sample.w1.srv.uploadSem.len < Sample.w1.srv.uploadSem.cap ∧
    ([⟨"x", [4]⟩, ⟨"b.txt", []⟩, ⟨"a.txt", [5, 6]⟩] : List pb.UploadFileRequest).getLast? =
      some ⟨"a.txt", [5, 6]⟩ ∧
    PlainName "a.txt" ∧
    ∃ res w1, UploadFile Sample.w1
        ⟨[⟨"x", [4]⟩, ⟨"b.txt", []⟩, ⟨"a.txt", [5, 6]⟩].map RecvResult.msg,
          Sample.t1, none, none⟩ = some (res, w1) ∧
      w1.fs.object "a.txt" = some [4, 5, 6] ∧
      (∀ g, g ≠ "a.txt" → w1.fs.stored g = Sample.w1.fs.stored g) ∧
      ((none : Option StreamError) = none → res = .ok ⟨"File uploaded successfully"⟩) ∧
      (∀ e, (none : Option StreamError) = some e → res = .error (.stream e)) :=
  ⟨by decide, by decide, by decide,
    C7_last_filename_wins Sample.w1 [⟨"x", [4]⟩, ⟨"b.txt", []⟩, ⟨"a.txt", [5, 6]⟩]
      ⟨"a.txt", [5, 6]⟩ Sample.t1 none none (by decide) (by decide) (by decide) (by decide)⟩

/-- C7 as stated fails: on a store holding `a.txt`, a one-chunk upload under the
non-empty filename `./a.txt` succeeds, replaces the content of the object
`a.txt`, which is another name, and leaves no object named `./a.txt`.  And an
upload of `c.txt` whose write succeeds but whose `SendAndClose` fails stores the
object and returns the stream error, not a response. -/
theorem C7_counterexample :
    Sample.w1.fs.object "a.txt" = some [1, 2, 3] ∧
    Option.map (fun out => (out.1, out.2.fs.object "a.txt", out.2.fs.object "./a.txt"))
        (UploadFile Sample.w1 (Sample.upload [⟨"./a.txt", [9]⟩])) =
      some (.ok ⟨"File uploaded successfully"⟩, some [9], none) ∧
    Option.map (fun out => (out.1, out.2.fs.object "c.txt"))
        (UploadFile Sample.w1
          ⟨[.msg ⟨"c.txt", [9]⟩], Sample.t1, none, some ⟨"transport is closing"⟩⟩) =
      some (.error (.stream ⟨"transport is closing"⟩), some [9]) := by
  decide

/-- C8: for a request whose file is a stored regular file of `n` bytes,
`DownloadFile` returns and leaves the file system as it was; if it completes
normally it has sent exactly `ceil(n / 1024)` responses and nothing else, the
`i`-th being the 1024 bytes of the file from offset `1024 * i` (fewer at the
end), so that they concatenate to the file, every one but the last has 1024
bytes and every one has between 1 and 1024 bytes; an empty file yields no
response.  Without faults the call does complete normally. -/
theorem C8_download_chunks (w : World) (req : pb.DownloadFileRequest) (env : DownloadEnv)
    (p : AbsPath) (content : Bytes) (t : Time)
    (hroom : w.srv.uploadSem.len < w.srv.uploadSem.cap)
    (hres : w.fs.resolve (filepath.Join [storageDir, req.Filename]) = .ok p)
    (hnode : w.fs.node p = some ⟨.file content, t⟩) :
    ∃ res w1, DownloadFile w req env = some (res, w1) ∧ w1.fs = w.fs ∧
      (res.err = none →
        res.sent.length = (content.length + 1023) / 1024 ∧
        (∀ i (h : i < res.sent.length),
          res.sent[i].Content = (content.drop (1024 * i)).take 1024) ∧
        (res.sent.map (·.Content)).flatten = content ∧
        (∀ i (h : i < res.sent.length), i + 1 < res.sent.length →
          res.sent[i].Content.length = 1024) ∧
        (∀ i (h : i < res.sent.length),
          1 ≤ res.sent[i].Content.length ∧ res.sent[i].Content.length ≤ 1024) ∧
        (content = [] → res.sent = [])) ∧
      (env.openFault = none → (∀ j, env.readFault j = none) → (∀ j, env.sendErr j = none) →
        res.err = none) := by
  obtain ⟨res, hbody, hok, hclean⟩ := DownloadFile.body_regular w.fs req env p content t hres hnode
  refine ⟨res, ⟨w.srv, w.fs, w.semLog ++ [.acquire .uploadSem, .release .uploadSem]⟩,
    ?_, rfl, ?_, hclean⟩
  · rw [DownloadFile_of_room w req env hroom, hbody]
    rfl
  · intro herr
    obtain ⟨out, hsent, hflat, hidx, hlo, hhi⟩ := hok herr
    have hlen : res.sent.length = out.length := by rw [hsent, List.length_map]
    have hget : ∀ i (h : i < res.sent.length),
        res.sent[i].Content = (content.drop (1024 * i)).take 1024 := by
      intro i h
      have h2 : i < out.length := hlen ▸ h
      have : res.sent[i] = ⟨out[i]⟩ := by
        simp only [hsent, List.getElem_map]
      rw [this, hidx i h2]
    have hsize : ∀ i (h : i < res.sent.length),
        res.sent[i].Content.length = min 1024 (content.length - 1024 * i) := by
      intro i h
      rw [hget i h, List.length_take, List.length_drop]
    refine ⟨by omega, hget, ?_, ?_, ?_, ?_⟩
    · rw [hsent]
      simpa [List.map_map, Function.comp_def] using hflat
    · intro i h h1
      rw [hsize i h]
      omega
    · intro i h
      rw [hsize i h]
      omega
    · intro hc
      subst hc
      have : out.length = 0 := by
        simp only [List.length_nil] at hlo
        omega
      rw [hsent, List.length_eq_zero.mp this]
      rfl

/-- C8 on the store with two objects: `a.txt` of three bytes is sent as one chunk. -/
theorem C8_download_chunks_witness :
    Sample.w1.srv.uploadSem.len < Sample.w1.srv.uploadSem.cap ∧
    Sample.w1.fs.resolve (filepath.Join [storageDir, "a.txt"]) =
      .ok ["srv", "storage", "a.txt"] ∧
    Sample.w1.fs.node ["srv", "storage", "a.txt"] = some ⟨.file [1, 2, 3], Sample.t0⟩ ∧
    ∃ res w1, DownloadFile Sample.w1 ⟨"a.txt"⟩ Sample.download = some (res, w1) ∧
      w1.fs = Sample.w1.fs ∧
      (res.err = none →
        res.sent.length = (([1, 2, 3] : Bytes).length + 1023) / 1024 ∧
        (∀ i (h : i < res.sent.length),
          res.sent[i].Content = (([1, 2, 3] : Bytes).drop (1024 * i)).take 1024) ∧
        (res.sent.map (·.Content)).flatten = [1, 2, 3] ∧
        (∀ i (h : i < res.sent.length), i + 1 < res.sent.length →
          res.sent[i].Content.length = 1024) ∧
        (∀ i (h : i < res.sent.length),
          1 ≤ res.sent[i].Content.length ∧ res.sent[i].Content.length ≤ 1024) ∧
        (([1, 2, 3] : Bytes) = [] → res.sent = [])) ∧
      (Sample.download.openFault = none → (∀ j, Sample.download.readFault j = none) →
        (∀ j, Sample.download.sendErr j = none) → res.err = none) :=
  ⟨by decide, by decide, by decide,
    C8_download_chunks Sample.w1 ⟨"a.txt"⟩ Sample.download ["srv", "storage", "a.txt"]
      [1, 2, 3] Sample.t0 (by decide) (by decide) (by decide)⟩

/-- C9: `ListFiles` returns and leaves the file system as it was.  When
`os.ReadDir` of the storage directory and every `Info()` succeed, the response
has exactly one entry per directory entry, in the order of `os.ReadDir`, with
the entry's name as filename and the RFC 3339 text of its modification time as
both `CreatedAt` and `UpdatedAt`.  When `os.ReadDir` fails, or `Info()` fails
for some entry, the call returns status 500 and no list. -/
theorem C9_list_files (w : World) (env : ListEnv)
    (hroom : w.srv.listSem.len < w.srv.listSem.cap) :
    ∃ res w1, ListFiles w env = some (res, w1) ∧ w1.fs = w.fs ∧
      (∀ entries, os.ReadDir w.fs storageDir env.readDirFault = .ok entries →
        (∀ d ∈ entries, env.infoFault d.Name = none) →
        res = .ok ⟨entries.map fun d =>
          ⟨d.Name, d.node.modTime.FormatRFC3339, d.node.modTime.FormatRFC3339⟩⟩) ∧
      (∀ e, os.ReadDir w.fs storageDir env.readDirFault = .error e →
        res = .error (.status 500 ("failed to list files: " ++ e.Error))) ∧
      (∀ entries, os.ReadDir w.fs storageDir env.readDirFault = .ok entries →
        (∃ d ∈ entries, env.infoFault d.Name ≠ none) →
        ∃ msg, res = .error (.status 500 msg)) := by
  refine ⟨_, _, ListFiles_of_room w env hroom, rfl, ?_, ?_, ?_⟩
  · intro entries hrd hinfo
    simp [ListFiles.body, hrd, ListFiles.loop_ok env entries [] hinfo]
  · intro e hrd
    simp [ListFiles.body, hrd]
  · intro entries hrd hbad
    obtain ⟨d, -, e, -, hloop⟩ := ListFiles.loop_err env entries [] hbad
    refine ⟨"failed to get file info: " ++
      (PathError.mk "lstat" (storageDir ++ "/" ++ d.Name) e).Error, ?_⟩
    simp only [ListFiles.body, hrd, hloop]

/-- C9 on the store with two objects: the two entries come back sorted by name,
each with its modification time twice. -/
theorem C9_list_files_witness :
    Sample.w1.srv.listSem.len < Sample.w1.srv.listSem.cap ∧
    Option.map Prod.fst (ListFiles Sample.w1 Sample.listing) =
      some (.ok ⟨[⟨"a.txt", "2024-01-02T03:04:05Z", "2024-01-02T03:04:05Z"⟩,
        ⟨"b.txt", "2024-01-02T04:04:06+01:00", "2024-01-02T04:04:06+01:00"⟩]⟩) ∧
    ∃ res w1, ListFiles Sample.w1 Sample.listing = some (res, w1) ∧ w1.fs = Sample.w1.fs ∧
      (∀ entries, os.ReadDir Sample.w1.fs storageDir Sample.listing.readDirFault = .ok entries →
        (∀ d ∈ entries, Sample.listing.infoFault d.Name = none) →
        res = .ok ⟨entries.map fun d =>
          ⟨d.Name, d.node.modTime.FormatRFC3339, d.node.modTime.FormatRFC3339⟩⟩) ∧
      (∀ e, os.ReadDir Sample.w1.fs storageDir Sample.listing.readDirFault = .error e →
        res = .error (.status 500 ("failed to list files: " ++ e.Error))) ∧
      (∀ entries, os.ReadDir Sample.w1.fs storageDir Sample.listing.readDirFault = .ok entries →
        (∃ d ∈ entries, Sample.listing.infoFault d.Name ≠ none) →
        ∃ msg, res = .error (.status 500 msg)) :=
  ⟨by decide, by decide, C9_list_files Sample.w1 Sample.listing (by decide)⟩

/-- C10, as the code has it: for every plain file name `f` (one path element)
the path `filepath.Join(storageDir, f)` that `UploadFile` writes and
`DownloadFile` opens is `storage/f`, whose directory is the storage directory
and whose base name is `f`; it resolves to the child `f` of the storage
directory; an upload whose adopted filename is `f` leaves the kind and the
content of the node at every other location of the file system unchanged; and
`DownloadFile(f)` leaves the file system as it was, the file it opens is the
node at the child `f` of the storage directory, and what it sends is read from
the start of that regular file. -/
theorem C10_plain_name_is_direct_child (f : String) (hplain : PlainName f) :
    filepath.Join [storageDir, f] = "storage/" ++ f ∧
    filepath.Dir (filepath.Join [storageDir, f]) = filepath.Clean storageDir ∧
    filepath.Base (filepath.Join [storageDir, f]) = f ∧
    (∀ (fs : FS) (p : AbsPath), fs.resolve (filepath.Join [storageDir, f]) = .ok p →
      p = fs.storagePath ++ [f]) ∧
    (∀ (w : World) (reqs : List pb.UploadFileRequest) (r : pb.UploadFileRequest) (now : Time)
      (writeFault : Option WriteFault) (sendErr : Option StreamError),
      w.srv.uploadSem.len < w.srv.uploadSem.cap → reqs.getLast? = some r → r.Filename = f →
      ∃ res w1, UploadFile w ⟨reqs.map RecvResult.msg, now, writeFault, sendErr⟩ =
          some (res, w1) ∧
        ∀ q, q ≠ w.fs.storagePath ++ [f] →
          (w1.fs.node q).map Node.kind = (w.fs.node q).map Node.kind) ∧
    (∀ (w : World) (env : DownloadEnv),
      w.srv.uploadSem.len < w.srv.uploadSem.cap →
      ∃ res w1, DownloadFile w ⟨f⟩ env = some (res, w1) ∧ w1.fs = w.fs ∧
        (∀ file, os.Open w.fs (filepath.Join [storageDir, f]) env.openFault = .ok file →
          ∃ n, w.fs.node (w.fs.storagePath ++ [f]) = some n ∧
            file = (match n.kind with
              | .file content => OpenFile.regular content
              | .dir => OpenFile.directory)) ∧
        (res.sent ≠ [] →
          ∃ c t, w.fs.node (w.fs.storagePath ++ [f]) = some ⟨.file c, t⟩ ∧
            (res.sent.map (·.Content)).flatten <+: c)) := by
  have hjoin := filepath.Join_storageDir_plain f hplain
  refine ⟨hjoin, ?_, ?_, ?_, ?_, ?_⟩
  · rw [hjoin, filepath.Dir_storage_plain f hplain]
    decide
  · rw [hjoin, filepath.Base_storage_plain f hplain]
  · intro fs p hres
    rw [hjoin] at hres
    exact (FS.resolve_storage_plain_ok fs f hplain p hres).1
  · intro w reqs r now writeFault sendErr hroom hlast hf
    subst hf
    refine ⟨_, _, UploadFile_of_room w _ hroom, ?_⟩
    intro q hq
    simp only [UploadFile.body_fs w.fs reqs r now writeFault sendErr hlast hplain.1]
    exact os.WriteFile_plain_kind w.fs r.Filename hplain _ now writeFault q hq
  · intro w env hroom
    obtain ⟨res, hres⟩ := DownloadFile.body_isSome w.fs ⟨f⟩ env
    refine ⟨res, ⟨w.srv, w.fs, w.semLog ++ [.acquire .uploadSem, .release .uploadSem]⟩,
      ?_, rfl, ?_, ?_⟩
    · rw [DownloadFile_of_room w _ env hroom, hres]
      rfl
    · intro file hopen
      exact os.Open_plain_ok w.fs f hplain env.openFault file hopen
    · intro hs
      exact DownloadFile.body_plain_sent w.fs f hplain env res hres hs

/-- C10 for the file name `a.txt`. -/
theorem C10_plain_name_is_direct_child_witness :
    PlainName "a.txt" ∧
    (filepath.Join [storageDir, "a.txt"] = "storage/" ++ "a.txt" ∧
    filepath.Dir (filepath.Join [storageDir, "a.txt"]) = filepath.Clean storageDir ∧
    filepath.Base (filepath.Join [storageDir, "a.txt"]) = "a.txt" ∧
    (∀ (fs : FS) (p : AbsPath), fs.resolve (filepath.Join [storageDir, "a.txt"]) = .ok p →
      p = fs.storagePath ++ ["a.txt"]) ∧
    (∀ (w : World) (reqs : List pb.UploadFileRequest) (r : pb.UploadFileRequest) (now : Time)
      (writeFault : Option WriteFault) (sendErr : Option StreamError),
      w.srv.uploadSem.len < w.srv.uploadSem.cap → reqs.getLast? = some r →
      r.Filename = "a.txt" →
      ∃ res w1, UploadFile w ⟨reqs.map RecvResult.msg, now, writeFault, sendErr⟩ =
          some (res, w1) ∧
        ∀ q, q ≠ w.fs.storagePath ++ ["a.txt"] →
          (w1.fs.node q).map Node.kind = (w.fs.node q).map Node.kind) ∧
    (∀ (w : World) (env : DownloadEnv),
      w.srv.uploadSem.len < w.srv.uploadSem.cap →
      ∃ res w1, DownloadFile w ⟨"a.txt"⟩ env = some (res, w1) ∧ w1.fs = w.fs ∧
        (∀ file, os.Open w.fs (filepath.Join [storageDir, "a.txt"]) env.openFault = .ok file →
          ∃ n, w.fs.node (w.fs.storagePath ++ ["a.txt"]) = some n ∧
            file = (match n.kind with
              | .file content => OpenFile.regular content
              | .dir => OpenFile.directory)) ∧
        (res.sent ≠ [] →
          ∃ c t, w.fs.node (w.fs.storagePath ++ ["a.txt"]) = some ⟨.file c, t⟩ ∧
            (res.sent.map (·.Content)).flatten <+: c))) :=
  ⟨by decide, C10_plain_name_is_direct_child "a.txt" (by decide)⟩

/-- C10 as stated fails: an upload under the filename `../x` commits; the path
written is `x`, whose directory is not the storage directory, and the file
appears next to the storage directory, outside it.  An upload under `sub/x`
writes into a subdirectory when the storage directory has one.  And a download
of `../notes` opens and sends a file that lies outside the storage directory. -/
theorem C10_counterexample :
    filepath.Join [storageDir, "../x"] = "x" ∧
    filepath.Dir (filepath.Join [storageDir, "../x"]) ≠ filepath.Clean storageDir ∧
    Option.map (fun out => (out.1, out.2.fs.node ["srv", "x"], out.2.fs.stored "../x"))
        (UploadFile Sample.w0 (Sample.upload [⟨"../x", [1]⟩])) =
      some (.ok ⟨"File uploaded successfully"⟩, some ⟨.file [1], Sample.t1⟩, none) ∧
    filepath.Join [storageDir, "sub/x"] = "storage/sub/x" ∧
    filepath.Dir (filepath.Join [storageDir, "sub/x"]) = "storage/sub" ∧
    filepath.Join [storageDir, "../notes"] = "notes" ∧
    Sample.fs4.stored "../notes" = none ∧
    Option.map Prod.fst (DownloadFile ⟨NewServer, Sample.fs4, []⟩ ⟨"../notes"⟩ Sample.download) =
      some ⟨none, [⟨[5, 6]⟩]⟩ := by
  decide
